import Mathlib

/-!
Verification of the vrs_anvil_toolkit core against its specification.

The Python sources are shallowly embedded: Python strings are Lean `String`,
fallible code returns `Except PyErr`, the module-level mutable `metrics`
map is threaded explicitly, and the threaded translation pipeline of
`vrs_anvil/translator.py` is embedded as a small-step transition system
over an explicit scheduler action type.
-/

namespace VrsAnvil

/-! ## Python string primitives

Helpers embedding the Python string operations used by the sources:
`str.strip`, `str.split(sep)`, substring membership (`tok in s`) and
`str.startswith`. -/

/-- Python str.strip with no arguments: drop leading and trailing whitespace. -/
def pyStrip (s : String) : String :=
  ⟨((s.data.dropWhile Char.isWhitespace).reverse.dropWhile Char.isWhitespace).reverse⟩

/-- Python substring test `sub in s`. -/
def pyContains (sub s : String) : Bool :=
  decide (sub.data <:+: s.data)

/-- Python `s.startswith(pre)`. -/
def pyStartswith (pre s : String) : Bool :=
  pre.data.isPrefixOf s.data

/-- Helper for `pySplitChar`: accumulate the current field (reversed) while
scanning the remaining characters. -/
def splitCharAux (sep : Char) : List Char → List Char → List String
  | [], cur => [⟨cur.reverse⟩]
  | c :: cs, cur =>
      if c = sep then ⟨cur.reverse⟩ :: splitCharAux sep cs []
      else splitCharAux sep cs (c :: cur)

/-- Python `s.split(sep)` for a one-character separator (the sources only
split on "\t" and ","): empty fields are preserved and the empty string
splits to `[""]`. -/
def pySplitChar (sep : Char) (s : String) : List String :=
  splitCharAux sep s.data []

/-- The tab separator of VCF fields. -/
def tabChar : Char := Char.ofNat 9

/-- The comma separator of alternate alleles. -/
def commaChar : Char := Char.ofNat 44

/-! ## generate_gnomad_ids (src/vrs_anvil/__init__.py, lines 155-188)

The source splits the stripped VCF line on tabs, reads fields 0, 1, 3 and 4
(an IndexError on a short line is modelled by `none`), optionally emits the
reference expression, then appends one expression per comma-separated
alternate value unless the alternate contains one of the enumerated
symbolic-allele tokens as a substring. -/

/-- The skip-list of symbolic-allele substrings from the source
(`invalid_alts` in `generate_gnomad_ids`). -/
def invalid_alts : List String :=
  ["INS", "DEL", "DUP", "INV", "CNV", "TANDEM", "INT", "EXT", "*"]

/-- The inner `for invalid_alt in invalid_alts: ... break` loop of
`generate_gnomad_ids`: the alternate survives when no token is a substring. -/
def is_valid_loop : List String → String → Bool
  | [], _ => true
  | tok :: toks, alt => if pyContains tok alt then false else is_valid_loop toks alt

/-- Body of the `for alt in alternate_allele.split(",")` loop of
`generate_gnomad_ids`: strip the alternate, keep the expression when the
skip-list check passes. -/
def gnomadAltStep (gnomad_loc reference_allele : String)
    (gnomad_ids : List String) (alt0 : String) : List String :=
  let alt := pyStrip alt0
  if is_valid_loop invalid_alts alt then
    gnomad_ids ++ [gnomad_loc ++ "-" ++ reference_allele ++ "-" ++ alt]
  else gnomad_ids

/-- Embedding of `generate_gnomad_ids(vcf_line, compute_for_ref)`.
Returns `none` when the line has fewer than five tab-separated fields
(the Python code raises IndexError there). -/
def generate_gnomad_ids (vcf_line : String) (compute_for_ref : Bool) :
    Option (List String) :=
  let fields := pySplitChar tabChar (pyStrip vcf_line)
  match fields.get? 0, fields.get? 1, fields.get? 3, fields.get? 4 with
  | some chromosome, some position, some reference_allele, some alternate_allele =>
      let gnomad_loc := chromosome ++ "-" ++ position
      let init :=
        if compute_for_ref then
          [gnomad_loc ++ "-" ++ reference_allele ++ "-" ++ reference_allele]
        else []
      some ((pySplitChar commaChar alternate_allele).foldl
        (gnomadAltStep gnomad_loc reference_allele) init)
  | _, _, _, _ => none

/-- Restatement of C8 in the words of the spec: the reference expression
appears exactly when `compute_for_ref` is set, followed by one expression per
comma-separated alternate, omitting exactly the alternates containing a
skip-list token as a substring. -/
def gnomadIdsSpec (vcf_line : String) (compute_for_ref : Bool) :
    Option (List String) :=
  let fields := pySplitChar tabChar (pyStrip vcf_line)
  match fields.get? 0, fields.get? 1, fields.get? 3, fields.get? 4 with
  | some chromosome, some position, some reference_allele, some alternate_allele =>
      let gnomad_loc := chromosome ++ "-" ++ position
      some ((if compute_for_ref then
              [gnomad_loc ++ "-" ++ reference_allele ++ "-" ++ reference_allele]
            else []) ++
            (((pySplitChar commaChar alternate_allele).map pyStrip).filter
                (fun alt => !(invalid_alts.any (fun tok => pyContains tok alt)))).map
              (fun alt => gnomad_loc ++ "-" ++ reference_allele ++ "-" ++ alt))
  | _, _, _, _ => none

theorem is_valid_loop_eq_not_any (toks : List String) (alt : String) :
    is_valid_loop toks alt = !(toks.any (fun tok => pyContains tok alt)) := by
  induction toks with
  | nil => rfl
  | cons tok toks ih =>
      unfold is_valid_loop
      cases h : pyContains tok alt
      · simp [h, ih]
      · simp [h]

theorem gnomad_fold_eq_filter_map (loc ref : String) (alts : List String)
    (acc : List String) :
    alts.foldl (gnomadAltStep loc ref) acc
    = acc ++ ((alts.map pyStrip).filter
        (fun alt => !(invalid_alts.any (fun tok => pyContains tok alt)))).map
        (fun alt => loc ++ "-" ++ ref ++ "-" ++ alt) := by
  induction alts generalizing acc with
  | nil => simp
  | cons a alts ih =>
      simp only [List.foldl_cons, List.map_cons, List.filter_cons,
        gnomadAltStep, is_valid_loop_eq_not_any]
      cases h : invalid_alts.any (fun tok => pyContains tok (pyStrip a)) <;>
        simp [h, ih]

/-- C8: for every tab-separated VCF line with at least five fields,
`generate_gnomad_ids` returns the reference expression `chrom-pos-ref-ref`
exactly when `compute_for_ref` is set, followed by one expression
`chrom-pos-ref-alt` per comma-separated alternate value, omitting exactly
the alternates containing one of the enumerated symbolic-allele tokens
INS, DEL, DUP, INV, CNV, TANDEM, INT, EXT, `*` as a substring. -/
theorem generate_gnomad_ids_spec (vcf_line : String) (compute_for_ref : Bool)
    (h : 5 ≤ (pySplitChar tabChar (pyStrip vcf_line)).length) :
    generate_gnomad_ids vcf_line compute_for_ref
      = gnomadIdsSpec vcf_line compute_for_ref := by
  have h0 := List.get?_eq_get
    (show 0 < (pySplitChar tabChar (pyStrip vcf_line)).length by omega)
  have h1 := List.get?_eq_get
    (show 1 < (pySplitChar tabChar (pyStrip vcf_line)).length by omega)
  have h3 := List.get?_eq_get
    (show 3 < (pySplitChar tabChar (pyStrip vcf_line)).length by omega)
  have h4 := List.get?_eq_get
    (show 4 < (pySplitChar tabChar (pyStrip vcf_line)).length by omega)
  simp only [generate_gnomad_ids, gnomadIdsSpec, h0, h1, h3, h4]
  rw [gnomad_fold_eq_filter_map]

/-- Witness for C8 at a concrete VCF line with a symbolic alternate. -/
theorem generate_gnomad_ids_spec_witness :
    5 ≤ (pySplitChar tabChar (pyStrip "1\t100\trs1\tA\tT,<DEL>,G")).length ∧
    generate_gnomad_ids "1\t100\trs1\tA\tT,<DEL>,G" true
      = gnomadIdsSpec "1\t100\trs1\tA\tT,<DEL>,G" true :=
  ⟨by decide, generate_gnomad_ids_spec _ _ (by decide)⟩

/-! ## CachingAlleleTranslator.translate_from (src/vrs_anvil/__init__.py,
lines 61-74)

The source checks a diskcache store under the key `f"{var}-{fmt}"`, calls
the underlying AlleleTranslator on a miss and records the result. The store
is `none` when `manifest.cache_enabled` was false at construction time. The
external translation service is modelled as a pure function, which encodes
the determinism the spec assumes of it. -/

/-- The cache key built by the source f-string `f"{var}-{fmt}"`. -/
def cacheKey (var fmt : String) : String :=
  var ++ "-" ++ fmt

/-- The diskcache store of one CachingAlleleTranslator; `none` models a
disabled cache (`self._cache is None`). Newest entries are consed in front,
and `List.lookup` finds the newest, which matches overwriting assignment. -/
structure TransCache where
  entries : Option (List (String × String))
deriving DecidableEq

/-- Embedding of `CachingAlleleTranslator.translate_from`: check and update
the cache around the external call `ext`. Returns the translated value, the
updated cache state, and whether the external service was invoked. -/
def translate_from (ext : String → String → String) (st : TransCache)
    (var fmt : String) : String × TransCache × Bool :=
  match st.entries with
  | some cache =>
      match cache.lookup (cacheKey var fmt) with
      | some v => (v, st, false)
      | none =>
          let val := ext var fmt
          (val, ⟨some ((cacheKey var fmt, val) :: cache)⟩, true)
  | none => (ext var fmt, st, true)

/-- C6: two successive `translate_from` calls with the same expression and
format return identical results, and when the cache is enabled the second
call does not invoke the external service. -/
theorem caching_translator_idempotent (ext : String → String → String)
    (st : TransCache) (var fmt : String) :
    (translate_from ext (translate_from ext st var fmt).2.1 var fmt).1
        = (translate_from ext st var fmt).1
      ∧ ∀ c, st.entries = some c →
          (translate_from ext (translate_from ext st var fmt).2.1 var fmt).2.2
            = false := by
  obtain ⟨entries⟩ := st
  cases entries with
  | none => simp [translate_from]
  | some cache =>
      cases h : cache.lookup (cacheKey var fmt) with
      | some v => simp [translate_from, h]
      | none => simp [translate_from, h, List.lookup]

/-- External service used by concrete cache scenarios. -/
def extW : String → String → String :=
  fun var fmt => "ga4gh:VA." ++ var ++ "|" ++ fmt

/-- Witness for C6: a concrete repeated call on an initially empty enabled
cache returns the same value and skips the external service. -/
theorem caching_translator_idempotent_witness :
    (translate_from extW
        (translate_from extW ⟨some []⟩ "19-44908822-C-T" "gnomad").2.1
        "19-44908822-C-T" "gnomad").1
      = (translate_from extW ⟨some []⟩ "19-44908822-C-T" "gnomad").1
    ∧ (translate_from extW
        (translate_from extW ⟨some []⟩ "19-44908822-C-T" "gnomad").2.1
        "19-44908822-C-T" "gnomad").2.2 = false :=
  ⟨(caching_translator_idempotent extW ⟨some []⟩ "19-44908822-C-T" "gnomad").1,
   (caching_translator_idempotent extW ⟨some []⟩ "19-44908822-C-T" "gnomad").2
      [] rfl⟩

/-- External service whose answers distinguish the two colliding pairs. -/
def extCollide : String → String → String :=
  fun var _fmt => if var == "a-b" then "r1" else "r2"

/-- C7 counterexample: the distinct pairs ("a-b", "c") and ("a", "b-c") share
the cache key "a-b-c", so after translating the first pair, a call with the
second pair returns the value cached for the first pair ("r1") instead of its
own translation ("r2"). -/
theorem cache_key_collision :
    (("a-b", "c") ≠ (("a" : String), ("b-c" : String)))
    ∧ cacheKey "a-b" "c" = cacheKey "a" "b-c"
    ∧ (translate_from extCollide
        (translate_from extCollide ⟨some []⟩ "a-b" "c").2.1 "a" "b-c").1 = "r1"
    ∧ (translate_from extCollide ⟨some []⟩ "a" "b-c").1 = "r2"
    ∧ ("r1" : String) ≠ "r2" := by
  decide

/-- C7 amended: results are keyed by the concatenated string `var ++ "-" ++
fmt`; whenever two pairs produce distinct concatenated keys, a call with the
second pair after a call with the first returns exactly what a fresh call
with the second pair would return, so no cross-pair value is served. -/
theorem cache_key_distinct_no_cross (ext : String → String → String)
    (st : TransCache) (v1 f1 v2 f2 : String)
    (h : cacheKey v1 f1 ≠ cacheKey v2 f2) :
    (translate_from ext (translate_from ext st v1 f1).2.1 v2 f2).1
      = (translate_from ext st v2 f2).1 := by
  obtain ⟨entries⟩ := st
  cases entries with
  | none => simp [translate_from]
  | some cache =>
      have hne : (cacheKey v2 f2 == cacheKey v1 f1) = false := by
        simpa using fun hh => h hh.symm
      cases h1 : cache.lookup (cacheKey v1 f1) with
      | some v => simp [translate_from, h1]
      | none =>
          simp only [translate_from, h1, List.lookup, hne]
          cases h2 : cache.lookup (cacheKey v2 f2) <;> simp [h2]

/-- Witness for C7 amended at two concrete pairs with distinct keys. -/
theorem cache_key_distinct_no_cross_witness :
    (translate_from extW (translate_from extW ⟨some []⟩ "x" "y").2.1 "u" "w").1
      = (translate_from extW ⟨some []⟩ "u" "w").1 :=
  cache_key_distinct_no_cross extW ⟨some []⟩ "x" "y" "u" "w" (by decide)

/-! ## MetaKBProxy, metakb_ids and find_items_with_key
(src/vrs_anvil/__init__.py, lines 206-251)

`metakb_ids` deep-searches every corpus JSON document with
`glom(data, "**.id")` and keeps the values starting with "ga4gh:VA"; a
non-string value under an "id" key makes `.startswith` raise
AttributeError. `MetaKBProxy` records each collected id as `True` in a
diskcache store and `get` reads it back with default `False`. -/

/-- Python exceptions that the embedded fallible code can raise. -/
inductive PyErr where
  | typeError
  | attributeError
  | assertionError
  | indexError
  | translationError
deriving DecidableEq

/-- JSON values of a metakb corpus document. -/
inductive Json where
  | str (s : String)
  | num (n : Int)
  | jbool (b : Bool)
  | jnull
  | arr (items : List Json)
  | obj (fields : List (String × Json))

/-- Deep collection behind `glom(data, f"**.{key}")`: every value stored
under `key` in any object at any nesting depth (descending through objects
and arrays), in document order. -/
def collectKey (key : String) : Json → List Json
  | .obj fields => collectObj key fields
  | .arr items => collectArr key items
  | _ => []
where
  collectObj (key : String) : List (String × Json) → List Json
    | [] => []
    | (k, v) :: rest =>
        (if k == key then [v] else []) ++ collectKey key v ++ collectObj key rest
  collectArr (key : String) : List Json → List Json
    | [] => []
    | j :: rest => collectKey key j ++ collectArr key rest

/-- Embedding of `find_items_with_key(dictionary, key_to_find)`. -/
def find_items_with_key (dictionary : Json) (key_to_find : String) : List Json :=
  collectKey key_to_find dictionary

/-- The list comprehension of `metakb_ids`:
`[_ for _ in find_items_with_key(data, "id") if _.startswith("ga4gh:VA")]`.
A non-string collected value raises AttributeError at `.startswith`. -/
def metakb_ids_filter : List Json → Except PyErr (List String)
  | [] => .ok []
  | .str s :: rest =>
      match metakb_ids_filter rest with
      | .ok r => .ok (if pyStartswith "ga4gh:VA" s then s :: r else r)
      | .error e => .error e
  | _ :: _ => .error .attributeError

/-- Embedding of `metakb_ids(metakb_path)`: concatenate the filtered ids of
every corpus document, in glob order. -/
def metakb_ids : List Json → Except PyErr (List String)
  | [] => .ok []
  | doc :: rest =>
      match metakb_ids_filter (find_items_with_key doc "id"), metakb_ids rest with
      | .ok ids, .ok more => .ok (ids ++ more)
      | .error e, _ => .error e
      | .ok _, .error e => .error e

/-- The diskcache store of MetaKBProxy: string keys, boolean values; newest
writes are consed in front so `List.lookup` sees the latest assignment. -/
structure KBCache where
  entries : List (String × Bool)

/-- Embedding of `cache.set(key, value)`. -/
def KBCache.set (c : KBCache) (k : String) (v : Bool) : KBCache :=
  ⟨(k, v) :: c.entries⟩

/-- Embedding of `cache.get(key, False)`: default false for unseen keys. -/
def KBCache.get (c : KBCache) (k : String) : Bool :=
  (c.entries.lookup k).getD false

/-- The cache-population loop of `MetaKBProxy.__init__`:
`for _ in metakb_ids(metakb_path): cache.set(_, True)`. -/
def buildMetaKBCache (ids : List String) : KBCache :=
  ids.foldl (fun c i => c.set i true) ⟨[]⟩

/-- A MetaKBProxy holding its populated cache. -/
structure MetaKBProxy where
  cache : KBCache

/-- Embedding of `MetaKBProxy.get(vrs_id)`. -/
def MetaKBProxy.get (p : MetaKBProxy) (vrs_id : String) : Bool :=
  p.cache.get vrs_id

theorem kbcache_build_mem (ids : List String) (c : KBCache) (s : String) :
    ((ids.foldl (fun c i => c.set i true) c).get s = true)
      ↔ (s ∈ ids ∨ c.get s = true) := by
  induction ids generalizing c with
  | nil => simp
  | cons i ids ih =>
      simp only [List.foldl_cons, ih, List.mem_cons]
      constructor
      · rintro (h | h)
        · exact Or.inl (Or.inr h)
        · by_cases hs : s = i
          · exact Or.inl (Or.inl hs)
          · refine Or.inr ?_
            simpa [KBCache.set, KBCache.get, List.lookup,
              beq_eq_false_iff_ne.mpr hs] using h
      · rintro ((h | h) | h)
        · subst h
          refine Or.inr ?_
          simp [KBCache.set, KBCache.get, List.lookup]
        · exact Or.inl h
        · refine Or.inr ?_
          by_cases hs : s = i
          · subst hs
            simp [KBCache.set, KBCache.get, List.lookup]
          · simpa [KBCache.set, KBCache.get, List.lookup,
              beq_eq_false_iff_ne.mpr hs] using h

theorem metakb_ids_filter_mem (js : List Json) (ids : List String)
    (h : metakb_ids_filter js = .ok ids) (s : String) :
    s ∈ ids ↔ (Json.str s ∈ js ∧ pyStartswith "ga4gh:VA" s = true) := by
  induction js generalizing ids with
  | nil =>
      simp only [metakb_ids_filter, Except.ok.injEq] at h
      subst h
      simp
  | cons j rest ih =>
      cases j with
      | str t =>
          rw [metakb_ids_filter] at h
          cases hr : metakb_ids_filter rest with
          | error e => rw [hr] at h; exact absurd h (by simp)
          | ok r =>
              rw [hr] at h
              simp only [Except.ok.injEq] at h
              subst h
              by_cases hs : s = t
              · subst hs
                cases hw : pyStartswith "ga4gh:VA" s <;>
                  simp [hw, ih r hr, List.mem_cons]
              · cases hw : pyStartswith "ga4gh:VA" t <;>
                  simp [hw, ih r hr, List.mem_cons, hs,
                    fun hh : Json.str s = Json.str t => hs (Json.str.inj hh)]
      | num n => exact absurd h (by simp [metakb_ids_filter])
      | jbool b => exact absurd h (by simp [metakb_ids_filter])
      | jnull => exact absurd h (by simp [metakb_ids_filter])
      | arr items => exact absurd h (by simp [metakb_ids_filter])
      | obj fields => exact absurd h (by simp [metakb_ids_filter])

theorem metakb_ids_mem (corpus : List Json) (ids : List String)
    (h : metakb_ids corpus = .ok ids) (s : String) :
    s ∈ ids
      ↔ (pyStartswith "ga4gh:VA" s = true
          ∧ ∃ doc ∈ corpus, Json.str s ∈ find_items_with_key doc "id") := by
  induction corpus generalizing ids with
  | nil =>
      simp only [metakb_ids, Except.ok.injEq] at h
      subst h
      simp
  | cons doc rest ih =>
      rw [metakb_ids] at h
      cases h1 : metakb_ids_filter (find_items_with_key doc "id") with
      | error e => rw [h1] at h; exact absurd h (by simp)
      | ok first =>
          cases h2 : metakb_ids rest with
          | error e => rw [h1, h2] at h; exact absurd h (by simp)
          | ok more =>
              rw [h1, h2] at h
              simp only [Except.ok.injEq] at h
              subst h
              simp only [List.mem_append, ih more h2,
                metakb_ids_filter_mem _ _ h1 s]
              constructor
              · rintro (⟨hm, hw⟩ | ⟨hw, d, hd, hm⟩)
                · exact ⟨hw, doc, by simp, hm⟩
                · exact ⟨hw, d, by simp [hd], hm⟩
              · rintro ⟨hw, d, hd, hm⟩
                rcases List.mem_cons.mp hd with hd | hd
                · exact Or.inl ⟨hd ▸ hm, hw⟩
                · exact Or.inr ⟨hw, d, hd, hm⟩

/-- C5: after building the membership cache from a corpus whose id
extraction succeeds, `MetaKBProxy.get` returns true exactly for the string
values found under an "id" key at any nesting depth that start with
"ga4gh:VA", and false for every other identifier. -/
theorem metakb_membership_correct (corpus : List Json) (ids : List String)
    (h : metakb_ids corpus = .ok ids) (s : String) :
    (MetaKBProxy.get ⟨buildMetaKBCache ids⟩ s = true)
      ↔ (pyStartswith "ga4gh:VA" s = true
          ∧ ∃ doc ∈ corpus, Json.str s ∈ find_items_with_key doc "id") := by
  have hb : (MetaKBProxy.get ⟨buildMetaKBCache ids⟩ s = true) ↔ s ∈ ids := by
    have := kbcache_build_mem ids ⟨[]⟩ s
    simp only [MetaKBProxy.get, buildMetaKBCache, this]
    simp [KBCache.get, List.lookup]
  rw [hb, metakb_ids_mem corpus ids h s]

/-- Concrete corpus document for the C5 witness: two matching ids at
different nesting depths, one non-matching key. -/
def docW : Json :=
  .obj [("id", .str "ga4gh:VA.abc"),
        ("nested", .arr [.obj [("id", .str "ga4gh:VA.def")]]),
        ("other", .str "ga4gh:VA.ghi")]

/-- The single-document corpus of the C5 witness. -/
def corpusW : List Json := [docW]

theorem docW_items :
    find_items_with_key docW "id" = [.str "ga4gh:VA.abc", .str "ga4gh:VA.def"] :=
  rfl

/-- Witness for C5: on the concrete corpus, a nested matching id is
reported as a member and an unseen id is not. -/
theorem metakb_membership_correct_witness :
    (MetaKBProxy.get ⟨buildMetaKBCache ["ga4gh:VA.abc", "ga4gh:VA.def"]⟩
        "ga4gh:VA.def" = true)
    ∧ (MetaKBProxy.get ⟨buildMetaKBCache ["ga4gh:VA.abc", "ga4gh:VA.def"]⟩
        "ga4gh:VA.zzz" = false) := by
  constructor
  · refine (metakb_membership_correct corpusW _ rfl "ga4gh:VA.def").mpr
      ⟨by decide, docW, by simp [corpusW], ?_⟩
    rw [docW_items]
    simp
  · cases hg : MetaKBProxy.get ⟨buildMetaKBCache ["ga4gh:VA.abc", "ga4gh:VA.def"]⟩
        "ga4gh:VA.zzz" with
    | false => rfl
    | true =>
        have hm := (metakb_membership_correct corpusW _ rfl "ga4gh:VA.zzz").mp hg
        obtain ⟨-, d, hd, hmem⟩ := hm
        rcases List.mem_cons.mp hd with hd | hd
        · subst hd
          rw [docW_items] at hmem
          simp at hmem
        · exact absurd hd (by simp)

/-! ## Name resolution of the CLI subcommands (src/vrs_anvil/cli.py,
src/vrs_anvil/__init__.py, src/vrs_anvil/annotator.py)

A finite model of Python name/attribute resolution for claim C9: the names
bound at top level by the vrs_anvil package module, the names cli.py imports
from it at load time, the fields the Manifest model defines, and the
manifest attributes the pipeline reads or assigns. -/

/-- Every name bound at module top level by src/vrs_anvil/__init__.py:
imports, module variables, functions and classes, in source order. -/
def vrs_anvil_module_names : List String :=
  ["json", "logging", "os", "pathlib", "traceback", "Optional", "Generator",
   "zipfile", "SeqRepo", "Cache", "SeqRepoDataProxy", "AlleleTranslator",
   "glom", "BaseModel", "model_validator", "requests", "_logger",
   "LOGGED_ALREADY", "manifest", "gigabytes", "bytes_in_a_gigabyte",
   "cache_size_limit", "seqrepo_dir", "cache_directory",
   "CachingAlleleTranslator", "caching_allele_translator_factory",
   "ThreadedTranslator", "generate_gnomad_ids", "params_from_vcf",
   "find_items_with_key", "MetaKBProxy", "metakb_ids", "_get_metakb_models",
   "Manifest"]

/-- The names cli.py line 8 imports from the vrs_anvil package at load
time: `from vrs_anvil import Manifest, run_command_in_background,
get_process_info`. -/
def cli_imports_from_vrs_anvil : List String :=
  ["Manifest", "run_command_in_background", "get_process_info"]

/-- The fields declared by the Manifest pydantic model
(src/vrs_anvil/__init__.py, lines 288-352). -/
def manifest_fields : List String :=
  ["cache_directory", "num_threads", "annotate_vcfs", "state_directory",
   "vcf_files", "work_directory", "seqrepo_directory", "normalize", "limit",
   "cache_enabled", "compute_for_ref", "estimated_vcf_lines",
   "metakb_directory"]

/-- Manifest attributes read by `_vcf_generator` and `_vrs_generator`
(src/vrs_anvil/annotator.py lines 52-117). -/
def generator_manifest_attrs_read : List String :=
  ["vcf_files", "disable_progress_bars", "compute_for_ref", "limit",
   "estimated_vcf_lines", "normalize", "num_threads"]

/-- Manifest attributes assigned on each child manifest by the scatter
branch of annotate_cli (src/vrs_anvil/cli.py lines 111-114). -/
def scatter_manifest_attrs_assigned : List String :=
  ["vcf_files", "num_threads", "disable_progress_bars"]

/-- Whether every name in `imports` is bound by the module: the condition
for `from vrs_anvil import ...` to succeed. -/
def importsResolve (imports bound : List String) : Bool :=
  imports.all (fun n => bound.contains n)

/-- C9 is false on the code: the CLI module import fails because
run_command_in_background and get_process_info are not defined by the
vrs_anvil package, and Manifest defines no disable_progress_bars field even
though the pipeline generators read it and scatter mode assigns it. -/
theorem cli_names_unresolved :
    importsResolve cli_imports_from_vrs_anvil vrs_anvil_module_names = false
    ∧ ("run_command_in_background" ∈ cli_imports_from_vrs_anvil
        ∧ "run_command_in_background" ∉ vrs_anvil_module_names)
    ∧ ("get_process_info" ∈ cli_imports_from_vrs_anvil
        ∧ "get_process_info" ∉ vrs_anvil_module_names)
    ∧ ("disable_progress_bars" ∈ generator_manifest_attrs_read
        ∧ "disable_progress_bars" ∈ scatter_manifest_attrs_assigned
        ∧ "disable_progress_bars" ∉ manifest_fields) := by
  decide

/-! ## threaded_translator (src/vrs_anvil/translator.py, lines 14-150)

The pipeline is embedded as an interleaving transition system. Threads:
one reader (the Dispatcher) feeding the task queue, `num_worker_threads`
WorkerThread instances, and the consumer loop of `threaded_translator`
(the IdleTerminationMonitor) draining the result queue. Both queues have
maxsize `num_worker_threads * 2` and every enqueued PrioritizedItem has
priority 1, so they are modelled FIFO. A blocking put is a step that is
only enabled while the queue has room; the 1-second `get(timeout=1)` of
the consumer is a `timeout` action enabled whenever the result queue is
empty. Nothing ever enqueues the `None` sentinel that WorkerThread.run
checks for, so no sentinel action exists. -/

/-- The translated allele object, reduced to its identifier. -/
structure Allele where
  id : String
deriving DecidableEq

/-- Embedding of the VCFItem NamedTuple (translator.py lines 48-62). -/
structure VCFItem where
  fmt : String
  var : String
  file_name : Option String := none
  line_number : Option Nat := none
  identifier : Option String := none
  result : Option Allele := none
deriving DecidableEq

/-- Status of one WorkerThread: `busy it` is `self.busy = True` while
holding the dequeued item, `dead` is a worker that entered the except
branch of WorkerThread.run (logged, `busy` reset to False, thread exited).
Dead and idle workers both read as not busy, like the `busy` flag. -/
inductive WStatus where
  | idle
  | busy (item : VCFItem)
  | dead
deriving DecidableEq

/-- The `not worker_thread.busy` test of the consumer loop. -/
def WStatus.notBusy : WStatus → Bool
  | .busy _ => false
  | _ => true

/-- Whether a worker currently holds an item. -/
def WStatus.isBusy : WStatus → Bool
  | .busy _ => true
  | _ => false

/-- State of the threaded_translator pipeline: `pending` is the not yet
dispatched remainder of the input generator, `taskQ`/`resultQ` the two
bounded queues, `c` the consumer counter, `yielded` what the consumer has
yielded so far, `dropped` the number of items lost inside dying workers,
and `exited` the `break` of the consumer loop. -/
structure PState where
  pending : List VCFItem
  taskQ : List VCFItem
  workers : List WStatus
  resultQ : List VCFItem
  c : Nat
  yielded : List VCFItem
  dropped : Nat
  exited : Bool
deriving DecidableEq

/-- Queue capacity: both queues are built with
`maxsize=num_worker_threads * 2`. -/
def qcap (numThreads : Nat) : Nat := 2 * numThreads

/-- Interleaving actions: the reader dispatches one item, worker `k`
dequeues one task or finishes its current item, the consumer pops one
result, or the consumer's 1-second pop times out. -/
inductive PAction where
  | dispatch
  | take (k : Nat)
  | finish (k : Nat)
  | pop
  | timeout
deriving DecidableEq

/-- One interleaving step of the pipeline. `tr` is the outcome of the
per-worker `translator.translate_from(fmt=item.fmt, var=item.var)` call:
`some` an allele, or `none` when the call raises. A raised call drives the
worker into the except branch: the exception is logged, `busy` is cleared,
the thread breaks, and no result is enqueued. Dequeuing a task and the
`self.busy = True` assignment on the following source line are one atomic
step here (the coarser granularity only favours the spec claims). Failing
guards mean the action is not enabled (`none`). The state is frozen after
the consumer exits. -/
def stepApply (tr : String → String → Option Allele) (n : Nat)
    (s : PState) (a : PAction) : Option PState :=
  if s.exited then none else
  match a with
  | .dispatch =>
      match s.pending with
      | [] => none
      | it :: rest =>
          if s.taskQ.length < qcap n then
            some { s with pending := rest, taskQ := s.taskQ ++ [it] }
          else none
  | .take k =>
      match s.workers.get? k with
      | some .idle =>
          match s.taskQ with
          | [] => none
          | it :: rest =>
              some { s with taskQ := rest, workers := s.workers.set k (.busy it) }
      | _ => none
  | .finish k =>
      match s.workers.get? k with
      | some (.busy it) =>
          match tr it.fmt it.var with
          | some allele =>
              if s.resultQ.length < qcap n then
                some { s with
                  resultQ := s.resultQ ++ [{ it with result := some allele }],
                  workers := s.workers.set k .idle }
              else none
          | none =>
              some { s with
                  workers := s.workers.set k .dead,
                  dropped := s.dropped + 1 }
      | _ => none
  | .pop =>
      match s.resultQ with
      | [] => none
      | r :: rest =>
          some { s with
              resultQ := rest, c := s.c + 1,
              yielded := s.yielded ++ [r] }
  | .timeout =>
      if s.resultQ.isEmpty then
        if 0 < s.c ∧ s.workers.all WStatus.notBusy = true then
          some { s with exited := true }
        else some s
      else none

/-- Initial pipeline state for a finite input and `n` worker threads. -/
def initState (items : List VCFItem) (n : Nat) : PState :=
  ⟨items, [], List.replicate n .idle, [], 0, [], 0, false⟩

/-- Run an explicit scheduler trace; `none` when an action is not enabled. -/
def runSchedule (tr : String → String → Option Allele) (n : Nat)
    (s : PState) : List PAction → Option PState
  | [] => some s
  | a :: acts =>
      match stepApply tr n s a with
      | some s' => runSchedule tr n s' acts
      | none => none

/-- Reachability along the interleaving semantics. -/
inductive Reaches (tr : String → String → Option Allele) (n : Nat) :
    PState → PState → Prop where
  | refl (s : PState) : Reaches tr n s s
  | step {s s' s'' : PState} {a : PAction} :
      Reaches tr n s s' → stepApply tr n s' a = some s'' → Reaches tr n s s''

theorem runSchedule_reaches (tr : String → String → Option Allele) (n : Nat)
    (acts : List PAction) (s s' : PState)
    (h : runSchedule tr n s acts = some s') : Reaches tr n s s' := by
  induction acts generalizing s with
  | nil =>
      simp only [runSchedule, Option.some.injEq] at h
      exact h ▸ Reaches.refl s
  | cons a acts ih =>
      rw [runSchedule] at h
      cases ha : stepApply tr n s a with
      | none => rw [ha] at h; exact absurd h (by simp)
      | some s1 =>
          rw [ha] at h
          have hr := ih s1 h
          clear ih h
          induction hr with
          | refl => exact Reaches.step (Reaches.refl s) ha
          | step hr hs ih2 => exact Reaches.step ih2 hs

/-- Number of busy workers. -/
def busyCount (ws : List WStatus) : Nat :=
  ws.countP WStatus.isBusy

theorem countP_set {α : Type} (p : α → Bool) (l : List α) (k : Nat) (w x : α)
    (h : l.get? k = some w) :
    (l.set k x).countP p + (if p w then 1 else 0)
      = l.countP p + (if p x then 1 else 0) := by
  induction l generalizing k with
  | nil => simp at h
  | cons hd tl ih =>
      cases k with
      | zero =>
          rw [List.get?_cons_zero] at h
          injection h with h
          subst h
          simp only [List.set, List.countP_cons]
          omega
      | succ k =>
          rw [List.get?_cons_succ] at h
          have := ih k h
          simp only [List.set, List.countP_cons]
          omega

theorem busyCount_replicate_idle (n : Nat) :
    busyCount (List.replicate n .idle) = 0 := by
  induction n with
  | zero => rfl
  | succ n ih =>
      simp only [busyCount, List.countP_eq_zero]
      intro a ha
      rw [List.eq_of_mem_replicate ha]
      simp [WStatus.isBusy]

/-- Pipeline invariant: the worker list keeps its size, every input item is
in exactly one place (consumed, queued, held by a busy worker, pending, or
dropped by a dead worker), the consumer has yielded what it counted, and
the loop only exits after consuming something. -/
def PInv (items : List VCFItem) (n : Nat) (s : PState) : Prop :=
  s.workers.length = n
  ∧ s.c + s.resultQ.length + busyCount s.workers + s.taskQ.length
      + s.pending.length + s.dropped = items.length
  ∧ s.yielded.length = s.c
  ∧ (s.exited = true → 0 < s.c)

theorem pinv_init (items : List VCFItem) (n : Nat) :
    PInv items n (initState items n) := by
  refine ⟨by simp [initState], ?_, by simp [initState], by simp [initState]⟩
  simp [initState, busyCount_replicate_idle]

theorem pinv_step {tr : String → String → Option Allele} {n : Nat}
    {items : List VCFItem} {s s' : PState} {a : PAction}
    (hinv : PInv items n s) (ha : stepApply tr n s a = some s') :
    PInv items n s' := by
  obtain ⟨hlen, hsum, hyl, hexc⟩ := hinv
  cases hex : s.exited with
  | true => simp [stepApply, hex] at ha
  | false =>
  cases a with
  | dispatch =>
      simp only [stepApply, hex, Bool.false_eq_true, if_false] at ha
      split at ha
      · exact absurd ha (by simp)
      · rename_i it rest hp
        split at ha
        · injection ha with ha
          subst ha
          refine ⟨hlen, ?_, hyl, by simp [hex, hexc]⟩
          rw [hp] at hsum
          simp only [List.length_append, List.length_cons, List.length_nil] at hsum ⊢
          omega
        · exact absurd ha (by simp)
  | take k =>
      simp only [stepApply, hex, Bool.false_eq_true, if_false] at ha
      split at ha
      · rename_i hw
        split at ha
        · exact absurd ha (by simp)
        · rename_i it rest hq
          injection ha with ha
          subst ha
          have hcp := countP_set WStatus.isBusy s.workers k _ (.busy it) hw
          refine ⟨by simpa using hlen, ?_, hyl, by simp [hex, hexc]⟩
          simp [WStatus.isBusy] at hcp
          rw [hq] at hsum
          simp only [List.length_cons] at hsum
          simp only [busyCount] at hsum ⊢
          omega
      · exact absurd ha (by simp)
  | finish k =>
      simp only [stepApply, hex, Bool.false_eq_true, if_false] at ha
      split at ha
      · rename_i it hw
        split at ha
        · rename_i allele htr
          split at ha
          · injection ha with ha
            subst ha
            have hcp := countP_set WStatus.isBusy s.workers k _ .idle hw
            refine ⟨by simpa using hlen, ?_, hyl, by simp [hex, hexc]⟩
            simp [WStatus.isBusy] at hcp
            simp only [busyCount] at hsum ⊢
            simp only [List.length_append, List.length_cons, List.length_nil]
            omega
          · exact absurd ha (by simp)
        · rename_i htr
          injection ha with ha
          subst ha
          have hcp := countP_set WStatus.isBusy s.workers k _ .dead hw
          refine ⟨by simpa using hlen, ?_, hyl, by simp [hex, hexc]⟩
          simp [WStatus.isBusy] at hcp
          simp only [busyCount] at hsum ⊢
          omega
      · exact absurd ha (by simp)
  | pop =>
      simp only [stepApply, hex, Bool.false_eq_true, if_false] at ha
      split at ha
      · exact absurd ha (by simp)
      · rename_i r rest hq
        injection ha with ha
        subst ha
        refine ⟨hlen, ?_, by simp [hyl], by simp⟩
        dsimp only
        rw [hq] at hsum
        simp only [List.length_cons] at hsum
        omega
  | timeout =>
      simp only [stepApply, hex, Bool.false_eq_true, if_false] at ha
      split at ha
      · split at ha
        · rename_i hc
          injection ha with ha
          subst ha
          exact ⟨hlen, hsum, hyl, fun _ => hc.1⟩
        · injection ha with ha
          subst ha
          exact ⟨hlen, hsum, hyl, hexc⟩
      · exact absurd ha (by simp)

theorem pinv_reaches {tr : String → String → Option Allele} {n : Nat}
    {items : List VCFItem} {s' : PState}
    (h : Reaches tr n (initState items n) s') : PInv items n s' := by
  induction h with
  | refl => exact pinv_init items n
  | step hr hs ih => exact pinv_step ih hs

/-- Characterization of pipeline exit: a step leaves the consumer loop
exactly when the result-queue pop timed out, the consumer had already
yielded at least one result (`c > 0`, the misnamed `reader_started` flag)
and every worker read as not busy. -/
theorem exit_step_char (tr : String → String → Option Allele) (n : Nat)
    (s s' : PState) (a : PAction) (ha : stepApply tr n s a = some s') :
    s'.exited = true
      ↔ (a = .timeout ∧ s.resultQ = [] ∧ 0 < s.c
          ∧ s.workers.all WStatus.notBusy = true) := by
  cases hex : s.exited with
  | true => simp [stepApply, hex] at ha
  | false =>
  cases a with
  | dispatch =>
      simp only [stepApply, hex, Bool.false_eq_true, if_false] at ha
      split at ha
      · exact absurd ha (by simp)
      · split at ha
        · injection ha with ha
          subst ha
          simp [hex]
        · exact absurd ha (by simp)
  | take k =>
      simp only [stepApply, hex, Bool.false_eq_true, if_false] at ha
      split at ha
      · split at ha
        · exact absurd ha (by simp)
        · injection ha with ha
          subst ha
          simp [hex]
      · exact absurd ha (by simp)
  | finish k =>
      simp only [stepApply, hex, Bool.false_eq_true, if_false] at ha
      split at ha
      · split at ha
        · split at ha
          · injection ha with ha
            subst ha
            simp [hex]
          · exact absurd ha (by simp)
        · injection ha with ha
          subst ha
          simp [hex]
      · exact absurd ha (by simp)
  | pop =>
      simp only [stepApply, hex, Bool.false_eq_true, if_false] at ha
      split at ha
      · exact absurd ha (by simp)
      · injection ha with ha
        subst ha
        simp [hex]
  | timeout =>
      simp only [stepApply, hex, Bool.false_eq_true, if_false] at ha
      split at ha
      · rename_i hq
        split at ha
        · rename_i hc
          injection ha with ha
          subst ha
          simpa [List.isEmpty_iff.mp hq] using hc
        · rename_i hc
          injection ha with ha
          subst ha
          simp only [hex, Bool.false_eq_true, false_iff]
          intro hcon
          exact hc ⟨hcon.2.2.1, hcon.2.2.2⟩
      · exact absurd ha (by simp)

theorem all_notBusy_replicate (m : Nat) :
    (List.replicate m WStatus.idle).all WStatus.notBusy = true := by
  induction m with
  | zero => rfl
  | succ m ih =>
      rw [List.replicate_succ, List.all_cons, ih]
      rfl

theorem reaches_empty_init (tr : String → String → Option Allele) (n : Nat)
    (s' : PState) (h : Reaches tr n (initState [] n) s') :
    s' = initState [] n := by
  induction h with
  | refl => rfl
  | step hr hs ih =>
      subst ih
      rename_i s1 a
      cases a with
      | dispatch => simp [stepApply, initState] at hs
      | take k =>
          cases hw : (List.replicate n WStatus.idle)[k]? with
          | none => simp [stepApply, initState, hw] at hs
          | some w =>
              have hmem := List.getElem?_mem hw
              have hidle := List.eq_of_mem_replicate hmem
              subst hidle
              simp [stepApply, initState, hw] at hs
      | finish k =>
          cases hw : (List.replicate n WStatus.idle)[k]? with
          | none => simp [stepApply, initState, hw] at hs
          | some w =>
              have hmem := List.getElem?_mem hw
              have hidle := List.eq_of_mem_replicate hmem
              subst hidle
              simp [stepApply, initState, hw] at hs
      | pop => simp [stepApply, initState] at hs
      | timeout =>
          simp [stepApply, initState] at hs
          exact hs.symm

/-- Translation outcome in which every expression succeeds. -/
def trOk : String → String → Option Allele :=
  fun _ var => some ⟨var⟩

/-- C2 counterexample: on the empty input the consumer loop of
threaded_translator never terminates, because its exit requires `c > 0` and
no result ever arrives; the claim says the loop eventually terminates for
every finite input including the empty one. -/
theorem empty_input_never_terminates :
    ¬ ∃ s', Reaches trOk 2 (initState [] 2) s' ∧ s'.exited = true := by
  rintro ⟨s', hr, hex⟩
  rw [reaches_empty_init trOk 2 s' hr] at hex
  simp [initState] at hex

theorem runSchedule_append (tr : String → String → Option Allele) (n : Nat)
    (l1 l2 : List PAction) (s : PState) :
    runSchedule tr n s (l1 ++ l2)
      = (runSchedule tr n s l1).bind (fun s1 => runSchedule tr n s1 l2) := by
  induction l1 generalizing s with
  | nil => simp [runSchedule]
  | cons a l1 ih =>
      rw [List.cons_append]
      simp only [runSchedule]
      cases stepApply tr n s a with
      | none => simp
      | some s1 => simp [ih]

/-- The completed item a worker pushes for a successful translation. -/
def processedItem (tr : String → String → Option Allele)
    (it : VCFItem) : VCFItem :=
  match tr it.fmt it.var with
  | some allele => { it with result := some allele }
  | none => it

/-- A scheduler round that carries one item through the whole pipeline:
dispatch it, let worker 0 take and translate it, pop the result. -/
def roundSched : List PAction := [.dispatch, .take 0, .finish 0, .pop]

/-- `k` rounds of `roundSched`. -/
def repSched : Nat → List PAction
  | 0 => []
  | k + 1 => roundSched ++ repSched k

theorem run_one_round (tr : String → String → Option Allele) (m k : Nat)
    (it : VCFItem) (rest ys : List VCFItem) (a : Allele)
    (ha : tr it.fmt it.var = some a) :
    runSchedule tr (m + 1)
        ⟨it :: rest, [], .idle :: List.replicate m .idle, [], k, ys, 0, false⟩
        roundSched
      = some ⟨rest, [], .idle :: List.replicate m .idle, [],
              k + 1, ys ++ [{ it with result := some a }], 0, false⟩ := by
  have hcap : (0 : Nat) < qcap (m + 1) := by unfold qcap; omega
  simp [roundSched, runSchedule, stepApply, hcap, ha, List.set]

theorem run_rounds (tr : String → String → Option Allele) (m : Nat)
    (items : List VCFItem) :
    ∀ (k : Nat) (ys : List VCFItem),
      (∀ it ∈ items, (tr it.fmt it.var).isSome = true) →
      runSchedule tr (m + 1)
          ⟨items, [], .idle :: List.replicate m .idle, [], k, ys, 0, false⟩
          (repSched items.length)
        = some ⟨[], [], .idle :: List.replicate m .idle, [],
                k + items.length, ys ++ items.map (processedItem tr), 0,
                false⟩ := by
  induction items with
  | nil => intro k ys _; simp [repSched, runSchedule]
  | cons it rest ih =>
      intro k ys hall
      obtain ⟨a, ha⟩ := Option.isSome_iff_exists.mp (hall it (by simp))
      rw [List.length_cons, repSched, runSchedule_append,
        run_one_round tr m k it rest ys a ha]
      have hpi : processedItem tr it = { it with result := some a } := by
        simp [processedItem, ha]
      have hih := ih (k + 1) (ys ++ [{ it with result := some a }])
        (fun it2 hit2 => hall it2 (by simp [hit2]))
      rw [Option.some_bind, hih]
      have hk : k + 1 + rest.length = k + (rest.length + 1) := by omega
      rw [hk, ← hpi]
      simp [List.append_assoc]

/-- C2 (amended): (1) a step of the consumer loop declares the pipeline
exhausted exactly when a result pop times out, the consumer has already
yielded at least one result, and all workers read as not busy — the code
condition is `c > 0` (results consumed), not "the Dispatcher has produced
at least one item" as the claim words it; (2) the loop never exits before
the Dispatcher has dispatched at least one item (and before at least one
result was consumed); (3) for every nonempty input whose translations all
succeed and any worker count at least 1, a terminating execution exists,
ending with exactly the full input yielded. On the empty input the loop
never terminates (see the counterexample). -/
theorem idle_termination_characterization
    (tr : String → String → Option Allele) (n : Nat)
    (items : List VCFItem) :
    (∀ s s' a, stepApply tr n s a = some s' →
        (s'.exited = true
          ↔ (a = .timeout ∧ s.resultQ = [] ∧ 0 < s.c
              ∧ s.workers.all WStatus.notBusy = true)))
    ∧ (∀ s', Reaches tr n (initState items n) s' → s'.exited = true →
        0 < s'.c ∧ 0 < items.length - s'.pending.length)
    ∧ (0 < n → 0 < items.length →
        (∀ it ∈ items, (tr it.fmt it.var).isSome = true) →
        ∃ s', Reaches tr n (initState items n) s' ∧ s'.exited = true
          ∧ s'.c = items.length
          ∧ s'.yielded = items.map (processedItem tr)) := by
  refine ⟨fun s s' a ha => exit_step_char tr n s s' a ha, ?_, ?_⟩
  · intro s' hr hex
    obtain ⟨-, hsum, -, hexc⟩ := pinv_reaches hr
    have hc := hexc hex
    exact ⟨hc, by omega⟩
  · intro hn hitems hall
    obtain ⟨m, rfl⟩ : ∃ m, n = m + 1 := ⟨n - 1, by omega⟩
    have hrun := run_rounds tr m items 0 [] hall
    have hinit : initState items (m + 1)
        = ⟨items, [], .idle :: List.replicate m .idle, [], 0, [], 0, false⟩ := by
      rw [initState, List.replicate_succ]
    have hstep : stepApply tr (m + 1)
        ⟨[], [], .idle :: List.replicate m .idle, [], 0 + items.length,
          [] ++ items.map (processedItem tr), 0, false⟩ .timeout
        = some ⟨[], [], .idle :: List.replicate m .idle, [],
            0 + items.length, [] ++ items.map (processedItem tr), 0,
            true⟩ := by
      have hall2 : (WStatus.idle :: List.replicate m WStatus.idle).all
          WStatus.notBusy = true := by
        rw [List.all_cons, all_notBusy_replicate]
        rfl
      simp [stepApply, hall2, hitems]
    refine ⟨_, Reaches.step (runSchedule_reaches _ _ _ _ _ (hinit ▸ hrun))
      hstep, rfl, by simp, by simp⟩

/-- A single successfully translating work item. -/
def itemW : VCFItem := { fmt := "gnomad", var := "1-100-A-T" }

/-- Witness for C2 (amended) at one item, two workers, all-success
translation: a terminating execution yielding the whole input exists. -/
theorem idle_termination_characterization_witness :
    ∃ s', Reaches trOk 2 (initState [itemW] 2) s' ∧ s'.exited = true
      ∧ s'.c = [itemW].length
      ∧ s'.yielded = [itemW].map (processedItem trOk) :=
  (idle_termination_characterization trOk 2 [itemW]).2.2 (by omega)
    (by simp) (by intro it hit; simp [trOk])

/-- Translation outcome that raises on the expression "bad" and succeeds on
everything else, as CachingAlleleTranslator.translate_from can raise on an
untranslatable expression. -/
def trGoodBad : String → String → Option Allele :=
  fun _ var => if var == "bad" then none else some ⟨"ga4gh:VA." ++ var⟩

/-- A work item whose translation succeeds. -/
def goodItem : VCFItem := { fmt := "gnomad", var := "19-44908822-C-T" }

/-- A work item whose translation raises. -/
def badItem : VCFItem := { fmt := "gnomad", var := "bad" }

/-- Scheduler trace for the two-item, one-worker run: the first item goes
through, then the worker dies on the second and the consumer times out. -/
def c1Sched : List PAction :=
  [.dispatch, .take 0, .finish 0, .pop, .dispatch, .take 0, .finish 0,
   .timeout]

/-- C1 is false on the code: two items are submitted, no error-budget abort
occurs, yet the consumer loop observes exactly one completed item, because
WorkerThread.run reacts to the exception raised while translating the
second item by logging, clearing `busy` and breaking out of the thread —
no completed item carrying an error is ever enqueued, and the item is
dropped (final state: worker dead, dropped = 1, one yielded item). -/
theorem worker_exception_drops_item :
    runSchedule trGoodBad 1 (initState [goodItem, badItem] 1) c1Sched
      = some ⟨[], [], [.dead], [], 1,
          [{ goodItem with result := some ⟨"ga4gh:VA.19-44908822-C-T"⟩ }],
          1, true⟩
    ∧ [goodItem, badItem].length = 2 := by
  exact ⟨rfl, rfl⟩

/-! ## annotate_all and the module-level metrics
(src/vrs_anvil/annotator.py)

The module-level `metrics = recursive_defaultdict()` is threaded explicitly
as a `Metrics` value; it is created once at import time and never reset.
Sub-dict reads through the defaultdict vivify empty sub-dicts, which is
observably the same as the `[]` / `none` defaults here; the serialization
cleanup loop (annotator.py lines 193-199) only converts defaultdicts to
plain dicts, a representation no-op in this model, so the final `Metrics`
value is also what is dumped to the metrics file. Two distinct histogram
fields mirror the two distinct keys the source uses: the result loop
records errors under `metrics[file]["error"]` (the ERROR constant) while
the run total sums `metrics[file]["errors"]`. -/

/-- One per-file record of the metrics map. -/
structure FileRec where
  status : Option String := none
  start_time : Option Nat := none
  end_time : Option Nat := none
  elapsed_time : Option Nat := none
  line_count : Option Nat := none
  successes : Option Nat := none
  metakb_hits : Option Nat := none
  errorHist : List (String × Nat) := []
  errorsHist : List (String × Nat) := []
  evidence : List (String × String × String) := []
deriving DecidableEq

/-- The "total" pseudo-file record. -/
structure TotalRec where
  start_time : Option Nat := none
  end_time : Option Nat := none
  elapsed_time : Option Nat := none
  successes : Option Nat := none
  errors : Option Nat := none
deriving DecidableEq

/-- The metrics map: per-file records in insertion order plus the "total"
record (file paths are taken distinct from the literal key "total"). -/
structure Metrics where
  files : List (String × FileRec) := []
  total : TotalRec := {}
deriving DecidableEq

/-- The freshly imported module state: `metrics = recursive_defaultdict()`. -/
def metricsInit : Metrics := {}

/-- Python dict assignment on an association list: overwrite the first
binding in place, append a new binding at the end (insertion order). -/
def setAssoc {α : Type} : List (String × α) → String → α → List (String × α)
  | [], k, v => [(k, v)]
  | (q, w) :: rest, k, v =>
      if q == k then (q, v) :: rest else (q, w) :: setAssoc rest k v

/-- Read of `metrics[p]` with defaultdict vivification: a missing file key
reads as the all-defaults record. -/
def getFileD (m : Metrics) (p : String) : FileRec :=
  (m.files.lookup p).getD {}

/-- Update the record of one file key. -/
def updFile (m : Metrics) (p : String) (f : FileRec → FileRec) : Metrics :=
  { m with files := setAssoc m.files p (f (getFileD m p)) }

theorem lookup_setAssoc {α : Type} (l : List (String × α)) (k q : String)
    (v : α) :
    (setAssoc l k v).lookup q = if q == k then some v else l.lookup q := by
  induction l with
  | nil => cases h : q == k <;> simp [setAssoc, List.lookup, h]
  | cons e rest ih =>
      obtain ⟨a, b⟩ := e
      cases hak : a == k with
      | true =>
          have hk := eq_of_beq hak
          subst hk
          cases hqa : q == a <;>
            simp [setAssoc, List.lookup, hqa]
      | false =>
          cases hqa : q == a with
          | true =>
              have hq := eq_of_beq hqa
              subst hq
              have hqk : (q == k) = false := hak
              simp [setAssoc, hak, List.lookup, hqk]
          | false =>
              simp [setAssoc, hak, List.lookup, hqa, ih]

theorem lookup_updFile (m : Metrics) (p q : String) (f : FileRec → FileRec) :
    (updFile m p f).files.lookup q
      = if q == p then some (f (getFileD m p)) else m.files.lookup q := by
  simp [updFile, lookup_setAssoc]

theorem total_updFile (m : Metrics) (p : String) (f : FileRec → FileRec) :
    (updFile m p f).total = m.total := rfl

theorem mem_setAssoc_origin {α : Type} (l : List (String × α)) (k : String)
    (v : α) (e : String × α) (he : e ∈ setAssoc l k v) :
    e ∈ l ∨ e = (k, v) := by
  induction l with
  | nil => simpa [setAssoc] using he
  | cons hd rest ih =>
      obtain ⟨a, b⟩ := hd
      cases hak : a == k with
      | true =>
          have hk := eq_of_beq hak
          subst hk
          simp only [setAssoc, beq_self_eq_true, if_true, List.mem_cons] at he
          rcases he with he | he
          · exact Or.inr (by simp [he])
          · exact Or.inl (by simp [he])
      | false =>
          simp only [setAssoc, hak, Bool.false_eq_true, if_false,
            List.mem_cons] at he
          rcases he with he | he
          · exact Or.inl (by simp [he])
          · rcases ih he with h | h
            · exact Or.inl (by simp [h])
            · exact Or.inr h

/-- Python membership `"error" in result` on a VCFItem NamedTuple checks the
tuple values, not the field names: among the six fields only fmt, var and
identifier are strings in pipeline items (file_name is a pathlib.Path,
line_number an int, result an Allele object or None, none of which compare
equal to a str), so the test holds exactly when one of those equals
"error". VCFItem has no error field at all. -/
def errorIn (it : VCFItem) : Bool :=
  it.fmt == "error" || it.var == "error" || it.identifier == some "error"

/-- `file_path = str(result.file_name)`: Python str() of None is "None". -/
def fileKey (it : VCFItem) : String :=
  match it.file_name with
  | some p => p
  | none => "None"

/-- The body of the result loop of annotate_all (annotator.py lines
138-169) for one completed item. Error branch (lines 144-151): reading
`metrics[file_path][ERROR]` vivifies the "error" sub-dict, then
`result[ERROR]` indexes the NamedTuple with a string — TypeError; nothing
later in the branch (histogram update, total_errors increment, budget
break) is reachable. Success branch: `assert isinstance(allele, Allele)`
fails when the result is absent; `metrics[file_path][SUCCESSES] += 1` is a
TypeError when the counter was never initialised by _vcf_generator; a
knowledge-base hit records evidence parameters and increments the hit
counter. -/
def consumeItem (kb : String → Bool) (m : Metrics) (it : VCFItem) :
    Except PyErr Metrics :=
  if errorIn it then
    .error .typeError
  else
    match it.result with
    | none => .error .assertionError
    | some allele =>
        match (getFileD m (fileKey it)).successes with
        | none => .error .typeError
        | some v =>
            let m1 := updFile m (fileKey it)
              (fun r => { r with successes := some (v + 1) })
            if kb allele.id then
              match (getFileD m1 (fileKey it)).metakb_hits with
              | none => .error .typeError
              | some hits =>
                  .ok (updFile m1 (fileKey it) (fun r =>
                    { r with
                      evidence := setAssoc r.evidence allele.id
                        (it.fmt, it.var),
                      metakb_hits := some (hits + 1) }))
            else .ok m1

/-- The result loop of annotate_all over a stream of completed items; the
max_errors budget parameter is carried as in the source, but the only code
that reads it sits after the TypeError in the error branch and is
unreachable. -/
def annotateLoop (kb : String → Bool) (maxErrors : Nat) :
    Metrics → List VCFItem → Except PyErr Metrics
  | m, [] => .ok m
  | m, it :: rest =>
      match consumeItem kb m it with
      | .ok m1 => annotateLoop kb maxErrors m1 rest
      | .error e => .error e

/-- A knowledge base with no members. -/
def kbFalse : String → Bool := fun _ => false

/-- A completed item that satisfies the code's own `ERROR in result` test:
its var field equals the string "error". -/
def errItem : VCFItem :=
  { fmt := "gnomad", var := "error", file_name := some "f1",
    line_number := some 1 }

/-- C3 is false on the code: for a result stream of E = 2 erroring items
and budget B = 0 < E, the result loop does not stop after B+1 errors with
histogram updates — it raises TypeError at `result[ERROR]` (string index
into a NamedTuple) on the first erroring item, before any error is counted
or recorded. (Erroring items can only be recognised via tuple-value
membership, since VCFItem has no error field; and in real pipeline runs no
erroring item ever reaches this loop, because the worker thread drops it.) -/
theorem error_budget_typeerror :
    errorIn errItem = true
    ∧ annotateLoop kbFalse 0 metricsInit [errItem, errItem]
        = .error .typeError := by
  exact ⟨rfl, rfl⟩

/-! ## The composed run: _vcf_generator + inline translation + annotate_all
(src/vrs_anvil/annotator.py lines 44-205)

This model follows the deterministic inline path
(`Translator.translate_from` with num_threads = 1 drives
`inline_translator`); Python generators interleave producer and consumer in
exactly this sequential order, and the metrics finalization code is the
same on the threaded path. A translation exception propagates out of the
generator and aborts the run (`Except.error`), matching the inline code.
Time is an abstract monotone counter standing in for `time.time()`.
The threaded path that `_vrs_generator` selects for num_threads > 1 (the
manifest default is 20) is modelled separately below (`genEvents`,
`astep`): there the run-end behaviour differs, because the reader thread,
not the consumer, drives `_vcf_generator` and its metrics effects. -/

/-- The slice of the validated Manifest that the run model reads. Lines of
each VCF are inlined, since file reading is an external collaborator. -/
structure ManifestM where
  vcf_files : List (String × List String)
  compute_for_ref : Bool := false
  limit : Option Nat := none
  disable_progress_bars : Bool := false
deriving DecidableEq

/-- Modelled from the spec: the `disable_progress_bars` run-configuration
flag read by _vcf_generator and _vrs_generator (tqdm construction) and
assigned on each child manifest in scatter mode is missing from the
Manifest class in src/vrs_anvil/__init__.py (see claim C9); the spec calls
for progress indicators that scatter mode turns off per child, so the run
configuration is modelled with the flag present and every annotate_all run
reads it here. -/
def manifestDisableProgressBars (mani : ManifestM) : Bool :=
  mani.disable_progress_bars

/-- The Python test `manifest.limit and line_number > manifest.limit`:
None and 0 are falsy. -/
def limitHit (limit : Option Nat) (line_number : Nat) : Bool :=
  match limit with
  | none => false
  | some l => if l == 0 then false else decide (l < line_number)

/-- The open effects of _vcf_generator for one work file (annotator.py
lines 66-70). -/
def openFileRec (clock : Nat) (r : FileRec) : FileRec :=
  { r with status := some "started", start_time := some clock,
           successes := some 0, metakb_hits := some 0 }

/-- The close effects of _vcf_generator for one work file (annotator.py
lines 87-93): elapsed is end minus start, where start was set by the open
effect (the `getD 0` is the defaultdict read of a key that is always
present here). -/
def closeFileRec (clock line_number : Nat) (r : FileRec) : FileRec :=
  { r with status := some "finished", end_time := some clock,
           line_count := some line_number,
           elapsed_time := some (clock - r.start_time.getD 0) }

/-- One line of a work file: a header line yields nothing, any other line
yields one pipeline item per gnomad expression, each tagged with the file
and line of origin; a short line raises IndexError. The inline translator
then completes each item (a raised translation aborts the run), and
annotate_all consumes it. -/
def consumeLine (tr : String → String → Option Allele) (kb : String → Bool)
    (path : String) (line_number : Nat) (flag : Bool) (m : Metrics)
    (line : String) : Except PyErr Metrics :=
  if pyStartswith "#" line then .ok m
  else
    match generate_gnomad_ids line flag with
    | none => .error .indexError
    | some ids => consumeIds tr kb path line_number m ids
where
  consumeIds (tr : String → String → Option Allele) (kb : String → Bool)
      (path : String) (line_number : Nat) (m : Metrics) :
      List String → Except PyErr Metrics
    | [] => .ok m
    | g :: rest =>
        match tr "gnomad" g with
        | none => .error .translationError
        | some allele =>
            match consumeItem kb m
                { fmt := "gnomad", var := g, file_name := some path,
                  line_number := some line_number,
                  result := some allele } with
            | .ok m1 => consumeIds tr kb path line_number m1 rest
            | .error e => .error e

/-- The per-line loop of _vcf_generator fused with the consumer
(annotator.py lines 72-85): the line counter increments before the header
check, header lines skip the limit check, the limit check runs after the
expressions of a line were consumed. Returns the final line_number. -/
def consumeLines (tr : String → String → Option Allele) (kb : String → Bool)
    (path : String) (flag : Bool) (limit : Option Nat) :
    Metrics → Nat → List String → Except PyErr (Metrics × Nat)
  | m, line_number, [] => .ok (m, line_number)
  | m, line_number, line :: rest =>
      if pyStartswith "#" line then
        consumeLines tr kb path flag limit m (line_number + 1) rest
      else
        match consumeLine tr kb path (line_number + 1) flag m line with
        | .error e => .error e
        | .ok m1 =>
            if limitHit limit (line_number + 1) then .ok (m1, line_number + 1)
            else consumeLines tr kb path flag limit m1 (line_number + 1) rest

/-- One work file of the run: open effects, the fused line loop, close
effects. The clock advances at each time.time() call. -/
def consumeFile (tr : String → String → Option Allele) (kb : String → Bool)
    (flag : Bool) (limit : Option Nat) (m : Metrics) (clock : Nat)
    (path : String) (lines : List String) :
    Except PyErr (Metrics × Nat) :=
  let m0 := updFile m path (openFileRec clock)
  match consumeLines tr kb path flag limit m0 0 lines with
  | .error e => .error e
  | .ok (m1, line_number) =>
      .ok (updFile m1 path (closeFileRec (clock + 1) line_number), clock + 2)

/-- The work-file loop of _vcf_generator fused with the consumer. -/
def consumeFiles (tr : String → String → Option Allele) (kb : String → Bool)
    (flag : Bool) (limit : Option Nat) :
    Metrics → Nat → List (String × List String) → Except PyErr (Metrics × Nat)
  | m, clock, [] => .ok (m, clock)
  | m, clock, (path, lines) :: rest =>
      match consumeFile tr kb flag limit m clock path lines with
      | .error e => .error e
      | .ok (m1, clock1) => consumeFiles tr kb flag limit m1 clock1 rest

/-- Total of one error histogram. -/
def sumHist (h : List (String × Nat)) : Nat :=
  (h.map Prod.snd).sum

/-- The run-end metric computation of annotate_all (annotator.py lines
173-180): total end/elapsed times, total successes as the sum of
`metrics[key].get(SUCCESSES, 0)` over every non-total key, and total
"errors" as the sum over every non-total key of the values of the
`metrics[key]["errors"]` sub-dict — the key the result loop never writes
(it records under "error"); the read vivifies an empty sub-dict, a no-op
on the [] default here. -/
def finalizeMetrics (m : Metrics) (clock : Nat) : Metrics × Nat :=
  ({ m with total :=
      { m.total with
        end_time := some clock,
        elapsed_time := some (clock - m.total.start_time.getD 0),
        successes := some ((m.files.map
          (fun e => e.2.successes.getD 0)).sum),
        errors := some ((m.files.map
          (fun e => sumHist e.2.errorsHist)).sum) } }, clock + 1)

/-- Embedding of `annotate_all(manifest, max_errors)` over the module
metrics state `m`, on the inline (num_threads = 1) translation path: record
the total start time, read the progress-bar flag for the tqdm wrappers, run
the fused pipeline over every work file, then finalize. The budget
parameter is threaded to the result loop, whose only use of it is
unreachable (see `consumeItem`). The threaded path is modelled by `astep`
below. -/
def annotate_all_model (tr : String → String → Option Allele)
    (kb : String → Bool) (m : Metrics) (mani : ManifestM)
    (_max_errors : Nat) (clock : Nat) : Except PyErr (Metrics × Nat) :=
  let _ := manifestDisableProgressBars mani
  let m0 := { m with total := { m.total with start_time := some clock } }
  match consumeFiles tr kb mani.compute_for_ref mani.limit m0 (clock + 1)
      mani.vcf_files with
  | .error e => .error e
  | .ok (m1, clock1) => .ok (finalizeMetrics m1 clock1)

/-! ## Run-end metric invariants (claims C4 and C10)

Three invariants are carried through a run: the file keys stay
duplicate-free (Python dict semantics), every record keeps empty "error"
and "errors" histograms (the only code that would write the former raises
first, and nothing ever writes the latter), and lookup-reachable records
are finished outside the file currently being processed. -/

theorem lookup_mem {α : Type} :
    ∀ {l : List (String × α)} {k : String} {v : α},
      l.lookup k = some v → (k, v) ∈ l := by
  intro l
  induction l with
  | nil => intro k v h; simp [List.lookup] at h
  | cons e rest ih =>
      intro k v h
      obtain ⟨a, b⟩ := e
      cases hka : k == a with
      | true =>
          have := eq_of_beq hka
          subst this
          rw [List.lookup, hka] at h
          injection h with h
          subst h
          exact List.mem_cons_self _ _
      | false =>
          rw [List.lookup, hka] at h
          exact List.mem_cons_of_mem _ (ih h)

theorem mem_lookup_of_nodup {α : Type} {l : List (String × α)}
    (hnd : (l.map Prod.fst).Nodup) {e : String × α} (he : e ∈ l) :
    l.lookup e.1 = some e.2 := by
  induction l with
  | nil => simp at he
  | cons hd rest ih =>
      obtain ⟨a, b⟩ := hd
      simp only [List.map_cons, List.nodup_cons] at hnd
      rcases List.mem_cons.mp he with he | he
      · subst he
        simp [List.lookup]
      · have hne : e.1 ≠ a := by
          intro hx
          exact hnd.1 (hx ▸ List.mem_map_of_mem Prod.fst he)
        have : (e.1 == a) = false := by
          cases h : e.1 == a with
          | false => rfl
          | true => exact absurd (eq_of_beq h) hne
        rw [List.lookup, this]
        exact ih hnd.2 he

theorem keys_setAssoc {α : Type} (l : List (String × α)) (k : String)
    (v : α) :
    ∀ x ∈ (setAssoc l k v).map Prod.fst, x ∈ l.map Prod.fst ∨ x = k := by
  intro x hx
  obtain ⟨e, he, hex⟩ := List.mem_map.mp hx
  rcases mem_setAssoc_origin l k v e he with h | h
  · exact Or.inl (hex ▸ List.mem_map_of_mem Prod.fst h)
  · subst h
    exact Or.inr hex.symm

theorem nodup_setAssoc {α : Type} (l : List (String × α)) (k : String)
    (v : α) (h : (l.map Prod.fst).Nodup) :
    ((setAssoc l k v).map Prod.fst).Nodup := by
  induction l with
  | nil => simp [setAssoc]
  | cons hd rest ih =>
      obtain ⟨a, b⟩ := hd
      simp only [List.map_cons, List.nodup_cons] at h
      cases hak : a == k with
      | true =>
          simp only [setAssoc, hak, if_true, List.map_cons, List.nodup_cons]
          exact h
      | false =>
          simp only [setAssoc, hak, Bool.false_eq_true, if_false,
            List.map_cons, List.nodup_cons]
          refine ⟨?_, ih h.2⟩
          intro hmem
          rcases keys_setAssoc rest k v a hmem with hx | hx
          · exact h.1 hx
          · rw [hx] at hak
            simp at hak

/-- Duplicate-free file keys. -/
def NodupKeys (m : Metrics) : Prop :=
  (m.files.map Prod.fst).Nodup

/-- Every record holds empty "error" and "errors" histograms. -/
def HistNil (m : Metrics) : Prop :=
  ∀ e ∈ m.files, e.2.errorHist = [] ∧ e.2.errorsHist = []

/-- Status-and-times shape of a record after its file was closed. -/
def FileDoneT (r : FileRec) : Prop :=
  r.status = some "finished"
  ∧ ∃ st en, r.start_time = some st ∧ r.end_time = some en
      ∧ r.elapsed_time = some (en - st)

/-- Shape of the record of the file currently being processed. -/
def FileOpenT (r : FileRec) : Prop :=
  ∃ st, r.start_time = some st

/-- All lookup-reachable records are finished. -/
def DoneL (m : Metrics) : Prop :=
  ∀ p r, m.files.lookup p = some r → FileDoneT r

/-- All lookup-reachable records other than the open file `p` are finished;
`p` itself is present and open. -/
def OpenL (p : String) (m : Metrics) : Prop :=
  (∀ q r, q ≠ p → m.files.lookup q = some r → FileDoneT r)
  ∧ (∀ r, m.files.lookup p = some r → FileOpenT r)
  ∧ ∃ r0, m.files.lookup p = some r0

theorem histNil_getFileD {m : Metrics} (h : HistNil m) (p : String) :
    (getFileD m p).errorHist = [] ∧ (getFileD m p).errorsHist = [] := by
  unfold getFileD
  cases hl : m.files.lookup p with
  | none => simp
  | some r => simpa using h (p, r) (lookup_mem hl)

theorem nodupKeys_updFile {m : Metrics} (h : NodupKeys m) (p : String)
    (f : FileRec → FileRec) : NodupKeys (updFile m p f) :=
  nodup_setAssoc m.files p _ h

theorem histNil_updFile {m : Metrics} (h : HistNil m) (p : String)
    (f : FileRec → FileRec)
    (hf : ∀ r, (f r).errorHist = r.errorHist
        ∧ (f r).errorsHist = r.errorsHist) :
    HistNil (updFile m p f) := by
  intro e he
  rcases mem_setAssoc_origin _ _ _ _ he with hm | hm
  · exact h e hm
  · subst hm
    obtain ⟨h1, h2⟩ := histNil_getFileD h p
    obtain ⟨hf1, hf2⟩ := hf (getFileD m p)
    exact ⟨hf1.trans h1, hf2.trans h2⟩

theorem openL_updFile {m : Metrics} {p : String} (h : OpenL p m)
    (f : FileRec → FileRec)
    (hf : ∀ r, FileOpenT r → FileOpenT (f r)) :
    OpenL p (updFile m p f) := by
  obtain ⟨hdone, hopen, r0, hr0⟩ := h
  refine ⟨?_, ?_, ?_⟩
  · intro q r hq hl
    rw [lookup_updFile] at hl
    have hqp : (q == p) = false := by
      cases hx : q == p with
      | false => rfl
      | true => exact absurd (eq_of_beq hx) hq
    rw [hqp] at hl
    simp only [Bool.false_eq_true, if_false] at hl
    exact hdone q r hq hl
  · intro r hl
    rw [lookup_updFile] at hl
    simp only [beq_self_eq_true, if_true, Option.some.injEq] at hl
    subst hl
    refine hf _ ?_
    unfold getFileD
    rw [hr0]
    exact hopen r0 hr0
  · refine ⟨f (getFileD m p), ?_⟩
    rw [lookup_updFile]
    simp

/-- The conclusions carried by every per-item and per-line step of the run:
the three invariants at the open file `p`, an untouched total record, and
untouched records of every other file. -/
def StepConcl (p : String) (m m1 : Metrics) : Prop :=
  NodupKeys m1 ∧ HistNil m1 ∧ OpenL p m1 ∧ m1.total = m.total
  ∧ ∀ q, q ≠ p → m1.files.lookup q = m.files.lookup q

theorem stepConcl_refl {p : String} {m : Metrics} (hnd : NodupKeys m)
    (hh : HistNil m) (ho : OpenL p m) : StepConcl p m m :=
  ⟨hnd, hh, ho, rfl, fun _ _ => rfl⟩

theorem stepConcl_trans {p : String} {m m1 m2 : Metrics}
    (h1 : StepConcl p m m1) (h2 : StepConcl p m1 m2) : StepConcl p m m2 :=
  ⟨h2.1, h2.2.1, h2.2.2.1, h2.2.2.2.1.trans h1.2.2.2.1,
   fun q hq => (h2.2.2.2.2 q hq).trans (h1.2.2.2.2 q hq)⟩

theorem consumeItem_inv {kb : String → Bool} {m m1 : Metrics} {it : VCFItem}
    {p : String} (h : consumeItem kb m it = .ok m1) (hkey : fileKey it = p)
    (hnd : NodupKeys m) (hh : HistNil m) (ho : OpenL p m) :
    StepConcl p m m1 := by
  subst hkey
  unfold consumeItem at h
  split at h
  · exact absurd h (by simp)
  · split at h
    · exact absurd h (by simp)
    · split at h
      · exact absurd h (by simp)
      · rename_i allele v hv
        have hstep1 : StepConcl (fileKey it) m
            (updFile m (fileKey it)
              (fun r => { r with successes := some (v + 1) })) := by
          refine ⟨nodupKeys_updFile hnd _ _,
            histNil_updFile hh _ _ (fun r => ⟨rfl, rfl⟩),
            openL_updFile ho _ (fun r hr => hr), rfl, ?_⟩
          intro q hq
          rw [lookup_updFile]
          have : (q == fileKey it) = false := by
            cases hx : q == fileKey it with
            | false => rfl
            | true => exact absurd (eq_of_beq hx) hq
          rw [this]
          simp
        simp only [] at h
        split at h
        · split at h
          · exact absurd h (by simp)
          · rename_i hits hhits
            injection h with h
            subst h
            refine stepConcl_trans hstep1 ?_
            obtain ⟨hnd1, hh1, ho1, -, -⟩ := hstep1
            refine ⟨nodupKeys_updFile hnd1 _ _,
              histNil_updFile hh1 _ _ (fun r => ⟨rfl, rfl⟩),
              openL_updFile ho1 _ (fun r hr => hr), rfl, ?_⟩
            intro q hq
            rw [lookup_updFile]
            have : (q == fileKey it) = false := by
              cases hx : q == fileKey it with
              | false => rfl
              | true => exact absurd (eq_of_beq hx) hq
            rw [this]
            simp
        · injection h with h
          subst h
          exact hstep1

theorem consumeIds_inv {tr : String → String → Option Allele}
    {kb : String → Bool} {path : String} {ln : Nat} :
    ∀ {ids : List String} {m m1 : Metrics},
      NodupKeys m → HistNil m → OpenL path m →
      consumeLine.consumeIds tr kb path ln m ids = .ok m1 →
      StepConcl path m m1 := by
  intro ids
  induction ids with
  | nil =>
      intro m m1 hnd hh ho h
      rw [consumeLine.consumeIds] at h
      injection h with h
      subst h
      exact stepConcl_refl hnd hh ho
  | cons g rest ih =>
      intro m m1 hnd hh ho h
      rw [consumeLine.consumeIds] at h
      split at h
      · exact absurd h (by simp)
      · split at h
        · rename_i m2 hok
          have hc := consumeItem_inv hok rfl hnd hh ho
          exact stepConcl_trans hc (ih hc.1 hc.2.1 hc.2.2.1 h)
        · exact absurd h (by simp)

theorem consumeLine_inv {tr : String → String → Option Allele}
    {kb : String → Bool} {path : String} {ln : Nat} {flag : Bool}
    {m m1 : Metrics} {line : String}
    (hnd : NodupKeys m) (hh : HistNil m) (ho : OpenL path m)
    (h : consumeLine tr kb path ln flag m line = .ok m1) :
    StepConcl path m m1 := by
  rw [consumeLine] at h
  split at h
  · injection h with h
    subst h
    exact stepConcl_refl hnd hh ho
  · split at h
    · exact absurd h (by simp)
    · exact consumeIds_inv hnd hh ho h

theorem consumeLines_inv {tr : String → String → Option Allele}
    {kb : String → Bool} {path : String} {flag : Bool} {limit : Option Nat} :
    ∀ {lines : List String} {m m1 : Metrics} {ln ln1 : Nat},
      NodupKeys m → HistNil m → OpenL path m →
      consumeLines tr kb path flag limit m ln lines = .ok (m1, ln1) →
      StepConcl path m m1 := by
  intro lines
  induction lines with
  | nil =>
      intro m m1 ln ln1 hnd hh ho h
      rw [consumeLines] at h
      injection h with h
      rw [Prod.mk.injEq] at h
      rw [← h.1]
      exact stepConcl_refl hnd hh ho
  | cons line rest ih =>
      intro m m1 ln ln1 hnd hh ho h
      rw [consumeLines] at h
      split at h
      · exact ih hnd hh ho h
      · split at h
        · exact absurd h (by simp)
        · rename_i m2 hok
          have hc := consumeLine_inv hnd hh ho hok
          split at h
          · injection h with h
            rw [Prod.mk.injEq] at h
            rw [← h.1]
            exact hc
          · exact stepConcl_trans hc (ih hc.1 hc.2.1 hc.2.2.1 h)

/-- The conclusions carried by every per-file step of the run. -/
def FileConcl (m m1 : Metrics) (touched : String → Prop) : Prop :=
  NodupKeys m1 ∧ HistNil m1 ∧ DoneL m1 ∧ m1.total = m.total
  ∧ ∀ q, ¬touched q → m1.files.lookup q = m.files.lookup q

theorem consumeFile_inv {tr : String → String → Option Allele}
    {kb : String → Bool} {flag : Bool} {limit : Option Nat}
    {m m1 : Metrics} {clock clock1 : Nat} {path : String}
    {lines : List String}
    (hnd : NodupKeys m) (hh : HistNil m) (hd : DoneL m)
    (h : consumeFile tr kb flag limit m clock path lines
        = .ok (m1, clock1)) :
    FileConcl m m1 (fun q => q = path) := by
  rw [consumeFile] at h
  split at h
  · exact absurd h (by simp)
  · rename_i m2 ln hlines
    injection h with h
    rw [Prod.mk.injEq] at h
    obtain ⟨hm1, -⟩ := h
    subst hm1
    set m0 := updFile m path (openFileRec clock) with hm0
    have hnd0 : NodupKeys m0 := nodupKeys_updFile hnd _ _
    have hh0 : HistNil m0 :=
      histNil_updFile hh _ _ (fun r => ⟨rfl, rfl⟩)
    have ho0 : OpenL path m0 := by
      refine ⟨?_, ?_, ?_⟩
      · intro q r hq hl
        rw [hm0, lookup_updFile] at hl
        have : (q == path) = false := by
          cases hx : q == path with
          | false => rfl
          | true => exact absurd (eq_of_beq hx) hq
        rw [this] at hl
        simp only [Bool.false_eq_true, if_false] at hl
        exact hd q r hl
      · intro r hl
        rw [hm0, lookup_updFile] at hl
        simp only [beq_self_eq_true, if_true, Option.some.injEq] at hl
        subst hl
        exact ⟨clock, rfl⟩
      · refine ⟨openFileRec clock (getFileD m path), ?_⟩
        rw [hm0, lookup_updFile]
        simp
    have hc := consumeLines_inv hnd0 hh0 ho0 hlines
    obtain ⟨hnd2, hh2, ho2, htot2, hlk2⟩ := hc
    obtain ⟨hdone2, hopen2, r0, hr0⟩ := ho2
    have hgd : getFileD m2 path = r0 := by
      unfold getFileD
      rw [hr0]
      rfl
    obtain ⟨st, hst⟩ := hopen2 r0 hr0
    refine ⟨nodupKeys_updFile hnd2 _ _,
      histNil_updFile hh2 _ _ (fun r => ⟨rfl, rfl⟩), ?_, ?_, ?_⟩
    · intro q r hl
      rw [lookup_updFile] at hl
      cases hx : q == path with
      | true =>
          rw [hx] at hl
          simp only [if_true, Option.some.injEq] at hl
          subst hl
          rw [hgd]
          refine ⟨rfl, st, clock + 1, ?_, rfl, ?_⟩
          · simpa [closeFileRec] using hst
          · simp [closeFileRec, hst]
      | false =>
          rw [hx] at hl
          simp only [Bool.false_eq_true, if_false] at hl
          have hq : q ≠ path := by
            intro hxx
            rw [hxx] at hx
            simp at hx
          exact hdone2 q r hq hl
    · rw [total_updFile, htot2, hm0, total_updFile]
    · intro q hq
      have hqb : (q == path) = false := by
        cases hx : q == path with
        | false => rfl
        | true => exact absurd (eq_of_beq hx) hq
      rw [lookup_updFile, hqb]
      simp only [Bool.false_eq_true, if_false]
      rw [hlk2 q hq, hm0, lookup_updFile, hqb]
      simp

theorem consumeFiles_inv {tr : String → String → Option Allele}
    {kb : String → Bool} {flag : Bool} {limit : Option Nat} :
    ∀ {fs : List (String × List String)} {m m1 : Metrics}
      {clock clock1 : Nat},
      NodupKeys m → HistNil m → DoneL m →
      consumeFiles tr kb flag limit m clock fs = .ok (m1, clock1) →
      FileConcl m m1 (fun q => ∃ f ∈ fs, f.1 = q) := by
  intro fs
  induction fs with
  | nil =>
      intro m m1 clock clock1 hnd hh hd h
      rw [consumeFiles] at h
      injection h with h
      rw [Prod.mk.injEq] at h
      rw [← h.1]
      exact ⟨hnd, hh, hd, rfl, fun _ _ => rfl⟩
  | cons f rest ih =>
      intro m m1 clock clock1 hnd hh hd h
      obtain ⟨path, lines⟩ := f
      rw [consumeFiles] at h
      split at h
      · exact absurd h (by simp)
      · rename_i m2 clock2 hfile
        have hc := consumeFile_inv hnd hh hd hfile
        obtain ⟨hnd2, hh2, hd2, htot2, hlk2⟩ := hc
        have hcr := ih hnd2 hh2 hd2 h
        obtain ⟨hnd3, hh3, hd3, htot3, hlk3⟩ := hcr
        refine ⟨hnd3, hh3, hd3, htot3.trans htot2, ?_⟩
        intro q hq
        have hq1 : ¬∃ f ∈ rest, f.1 = q := by
          rintro ⟨f, hf, hfq⟩
          exact hq ⟨f, by simp [hf], hfq⟩
        have hq2 : q ≠ path := by
          intro hx
          exact hq ⟨(path, lines), by simp, hx.symm⟩
        rw [hlk3 q hq1, hlk2 q hq2]

/-- C4: at the end of every completed annotate_all run started from the
freshly imported metrics state, every per-file record has status
"finished" with elapsed time computed from its start and end times, the
total success counter equals the sum of the per-file success counters, and
the total error counter equals the sum over the per-file error histograms
(both are zero: the error branch of the result loop cannot complete, so no
completed run carries recorded errors, and the "errors" key the total sums
is never written). -/
theorem run_end_metrics_totals
    (tr : String → String → Option Allele) (kb : String → Bool)
    (mani : ManifestM) (me clock : Nat) (m1 : Metrics) (clock1 : Nat)
    (h : annotate_all_model tr kb metricsInit mani me clock
        = .ok (m1, clock1)) :
    (∀ e ∈ m1.files, e.2.status = some "finished"
        ∧ ∃ st en, e.2.start_time = some st ∧ e.2.end_time = some en
            ∧ e.2.elapsed_time = some (en - st))
    ∧ m1.total.successes
        = some ((m1.files.map (fun e => e.2.successes.getD 0)).sum)
    ∧ m1.total.errors
        = some ((m1.files.map (fun e => sumHist e.2.errorHist)).sum) := by
  rw [annotate_all_model] at h
  split at h
  · exact absurd h (by simp)
  · rename_i m2 clock2 hfiles
    injection h with h
    have hnd0 : NodupKeys { metricsInit with
        total := { metricsInit.total with start_time := some clock } } := by
      simp [NodupKeys, metricsInit]
    have hh0 : HistNil { metricsInit with
        total := { metricsInit.total with start_time := some clock } } := by
      intro e he
      simp [metricsInit] at he
    have hd0 : DoneL { metricsInit with
        total := { metricsInit.total with start_time := some clock } } := by
      intro p r hl
      simp [metricsInit, List.lookup] at hl
    have hc := consumeFiles_inv hnd0 hh0 hd0 hfiles
    obtain ⟨hnd2, hh2, hd2, -, -⟩ := hc
    have hm1 : m1 = (finalizeMetrics m2 clock2).1 := by
      rw [h]
    subst hm1
    refine ⟨?_, ?_, ?_⟩
    · intro e he
      have he2 : e ∈ m2.files := he
      exact hd2 e.1 e.2 (mem_lookup_of_nodup hnd2 he2)
    · rfl
    · have hz1 : (m2.files.map (fun e => sumHist e.2.errorsHist)).sum = 0 :=
        List.sum_eq_zero (by
          intro x hx
          obtain ⟨e, he, hex⟩ := List.mem_map.mp hx
          rw [← hex, (hh2 e he).2]
          rfl)
      have hz2 : (m2.files.map (fun e => sumHist e.2.errorHist)).sum = 0 :=
        List.sum_eq_zero (by
          intro x hx
          obtain ⟨e, he, hex⟩ := List.mem_map.mp hx
          rw [← hex, (hh2 e he).1]
          rfl)
      show some ((m2.files.map (fun e => sumHist e.2.errorsHist)).sum)
        = some ((m2.files.map (fun e => sumHist e.2.errorHist)).sum)
      rw [hz1, hz2]

/-- Manifest of the first concrete run: one work file of one variant line. -/
def mani1W : ManifestM :=
  { vcf_files := [("f1", ["1\t100\trs1\tA\tT"])],
    disable_progress_bars := true }

/-- Manifest of the second concrete run: a different work file. -/
def mani2W : ManifestM :=
  { vcf_files := [("f2", ["2\t200\trs2\tC\tG"])],
    disable_progress_bars := true }

/-- Witness for C4: a concrete completed run satisfying the run-end
properties. -/
theorem run_end_metrics_totals_witness :
    ∃ m1 c1,
      annotate_all_model trOk kbFalse metricsInit mani1W 10 0
        = .ok (m1, c1)
      ∧ (∀ e ∈ m1.files, e.2.status = some "finished")
      ∧ m1.total.successes
          = some ((m1.files.map (fun e => e.2.successes.getD 0)).sum)
      ∧ m1.total.errors
          = some ((m1.files.map (fun e => sumHist e.2.errorHist)).sum) := by
  obtain ⟨m1, c1, h⟩ : ∃ m1 c1,
      annotate_all_model trOk kbFalse metricsInit mani1W 10 0
        = .ok (m1, c1) := ⟨_, _, rfl⟩
  have hthm := run_end_metrics_totals trOk kbFalse mani1W 10 0 m1 c1 h
  exact ⟨m1, c1, h, fun e he => (hthm.1 e he).1, hthm.2.1, hthm.2.2⟩

/-- The module metrics state after the first concrete run. -/
def run1Metrics : Metrics :=
  match annotate_all_model trOk kbFalse metricsInit mani1W 10 0 with
  | .ok (m1, _) => m1
  | .error _ => metricsInit

/-- C10: annotate_all reads and writes the module-level metrics map and
never resets it. (1) In general, a per-file record accumulated by one run
is still present, unchanged, in the metrics serialized by a later run over
different files; (2) concretely, the output of a run depends on the
module state left by earlier runs, so it is not a function of the
arguments alone. -/
theorem metrics_global_persistence :
    (∀ (tr : String → String → Option Allele) (kb : String → Bool)
        (mani1 mani2 : ManifestM) (me1 me2 clk : Nat) (m1 : Metrics)
        (c1 : Nat) (m2 : Metrics) (c2 : Nat) (p : String) (r : FileRec),
        annotate_all_model tr kb metricsInit mani1 me1 clk = .ok (m1, c1) →
        annotate_all_model tr kb m1 mani2 me2 c1 = .ok (m2, c2) →
        m1.files.lookup p = some r →
        (∀ f ∈ mani2.vcf_files, f.1 ≠ p) →
        m2.files.lookup p = some r)
    ∧ annotate_all_model trOk kbFalse run1Metrics mani2W 10 4
        ≠ annotate_all_model trOk kbFalse metricsInit mani2W 10 4 := by
  constructor
  · intro tr kb mani1 mani2 me1 me2 clk m1 c1 m2 c2 p r h1 h2 hr hnp
    rw [annotate_all_model] at h1
    split at h1
    · exact absurd h1 (by simp)
    · rename_i m1b c1b hfiles1
      injection h1 with h1
      have hnd0 : NodupKeys { metricsInit with
          total := { metricsInit.total with start_time := some clk } } := by
        simp [NodupKeys, metricsInit]
      have hh0 : HistNil { metricsInit with
          total := { metricsInit.total with start_time := some clk } } := by
        intro e he
        simp [metricsInit] at he
      have hd0 : DoneL { metricsInit with
          total := { metricsInit.total with start_time := some clk } } := by
        intro q r0 hl
        simp [metricsInit, List.lookup] at hl
      obtain ⟨hnd1, hh1, hd1, -, -⟩ := consumeFiles_inv hnd0 hh0 hd0 hfiles1
      have hm1e : m1 = (finalizeMetrics m1b c1b).1 := (congrArg Prod.fst h1).symm
      have hm1f : m1.files = m1b.files := by
        rw [hm1e]
        rfl
      rw [annotate_all_model] at h2
      split at h2
      · exact absurd h2 (by simp)
      · rename_i m2b c2b hfiles2
        injection h2 with h2
        have hnd0b : NodupKeys { m1 with
            total := { m1.total with start_time := some c1 } } := by
          simpa [NodupKeys, hm1f] using hnd1
        have hh0b : HistNil { m1 with
            total := { m1.total with start_time := some c1 } } := by
          intro e he
          exact hh1 e (by simpa [hm1f] using he)
        have hd0b : DoneL { m1 with
            total := { m1.total with start_time := some c1 } } := by
          intro q r0 hl
          exact hd1 q r0 (by simpa [hm1f] using hl)
        obtain ⟨-, -, -, -, hlk2⟩ := consumeFiles_inv hnd0b hh0b hd0b hfiles2
        have hnt : ¬∃ f ∈ mani2.vcf_files, f.1 = p := by
          rintro ⟨f, hf, hfp⟩
          exact hnp f hf hfp
        have hm2e : m2 = (finalizeMetrics m2b c2b).1 := (congrArg Prod.fst h2).symm
        have hm2f : m2.files = m2b.files := by
          rw [hm2e]
          rfl
        rw [hm2f, hlk2 p hnt]
        exact hr
  · intro hcon
    exact absurd (congrArg (fun x => match x with
      | Except.ok (m, _) => m.files.length
      | Except.error _ => 0) hcon) (by decide)

/-- Witness for C10: concretely, the record of work file f1 accumulated by
the first run is still present with its counts in the metrics of a second
run over work file f2 only. -/
theorem metrics_global_persistence_witness :
    ∃ m2 c2 r,
      annotate_all_model trOk kbFalse run1Metrics mani2W 10 4
        = .ok (m2, c2)
      ∧ run1Metrics.files.lookup "f1" = some r
      ∧ m2.files.lookup "f1" = some r := by
  obtain ⟨m2, c2, h2⟩ : ∃ m2 c2,
      annotate_all_model trOk kbFalse run1Metrics mani2W 10 4
        = .ok (m2, c2) := ⟨_, _, rfl⟩
  obtain ⟨r, hr⟩ : ∃ r, run1Metrics.files.lookup "f1" = some r := ⟨_, rfl⟩
  refine ⟨m2, c2, r, h2, hr, ?_⟩
  exact metrics_global_persistence.1 trOk kbFalse mani1W mani2W 10 10 0
    run1Metrics 4 m2 c2 "f1" r rfl h2 hr (by decide)

/-! ## The threaded composed run (claim C4)

On the path `_vrs_generator` selects by default (num_threads = 20),
`threaded_translator` runs the Dispatcher on its own reader thread: the
reader drives `_vcf_generator`, so the generator's metrics side effects
(file open and file close writes) happen on the reader thread, between its
queue puts, while annotate_all's result loop runs on the main thread
consuming the monitor's yields. The generator is deterministic given the
manifest, so it is compiled into its sequence of side effects and yields
(`genEvents`, in source order); the reader applies each effect at the pull
that reaches it and holds a yielded item while blocked on a full task
queue. The worker, queue and timeout semantics are those of `stepApply`. -/

/-- One step of `_vcf_generator` as observed by the reader thread: a
metrics side effect at the current clock, a yielded work item, or an
exception escaping the generator. -/
inductive GenEvent where
  | eff (f : Metrics → Nat → Metrics × Nat)
  | yieldItem (it : VCFItem)
  | fail (e : PyErr)

/-- Events of one open work file (annotator.py lines 72-93): per line,
increment the counter, skip headers, yield one item per gnomad expression
(IndexError on a short line), honour the limit, and finish with the close
writes carrying the final line count. -/
def fileEvents (flag : Bool) (limit : Option Nat) (path : String) :
    Nat → List String → List GenEvent
  | ln, [] =>
      [.eff (fun m clock =>
        (updFile m path (closeFileRec clock ln), clock + 1))]
  | ln, line :: rest =>
      if pyStartswith "#" line then fileEvents flag limit path (ln + 1) rest
      else
        match generate_gnomad_ids line flag with
        | none => [.fail .indexError]
        | some ids =>
            (ids.map (fun g => GenEvent.yieldItem
              { fmt := "gnomad", var := g, file_name := some path,
                line_number := some (ln + 1) }))
            ++ (if limitHit limit (ln + 1) then
                  [.eff (fun m clock =>
                    (updFile m path (closeFileRec clock (ln + 1)),
                     clock + 1))]
                else fileEvents flag limit path (ln + 1) rest)

/-- The full event sequence of `_vcf_generator` over the manifest files:
open writes, the per-line events, close writes, per file in order. -/
def genEvents (flag : Bool) (limit : Option Nat) :
    List (String × List String) → List GenEvent
  | [] => []
  | (path, lines) :: rest =>
      .eff (fun m clock => (updFile m path (openFileRec clock), clock + 1))
        :: (fileEvents flag limit path 0 lines ++ genEvents flag limit rest)

/-- State of the threaded composed run: the generator events the reader
has not reached, the item a blocked reader put is holding, whether the
reader thread died from a generator exception (only logged by the
threading runtime), the two queues and workers of `threaded_translator`,
the consumer count, the consumer exit flag, an exception escaping
annotate_all's loop body, the module metrics, and the clock. -/
structure AState where
  events : List GenEvent
  held : Option VCFItem
  readerDead : Bool
  taskQ : List VCFItem
  workers : List WStatus
  resultQ : List VCFItem
  c : Nat
  exited : Bool
  crashed : Option PyErr
  metrics : Metrics
  clock : Nat

/-- Interleaving actions of the threaded composed run: the reader advances
the generator by one event, the reader completes its pending queue put,
worker `k` dequeues or finishes, the consumer pops one result and runs
annotate_all's loop body on it, or the consumer's pop times out. -/
inductive AAction where
  | pull
  | put
  | take (k : Nat)
  | finish (k : Nat)
  | pop
  | timeout

/-- One interleaving step of the threaded composed run. Queue, worker and
timeout semantics are exactly those of `stepApply`; a raised translation
kills the worker without enqueuing anything (translator.py lines 42-45); a
`pop` additionally runs the body of annotate_all's result loop, whose
exception would escape annotate_all (`crashed`). The state freezes once
the consumer exited or annotate_all raised. -/
def astep (tr : String → String → Option Allele) (kb : String → Bool)
    (n : Nat) (s : AState) (a : AAction) : Option AState :=
  if s.exited ∨ s.crashed.isSome then none else
  match a with
  | .pull =>
      if s.readerDead then none else
      match s.held with
      | some _ => none
      | none =>
          match s.events with
          | [] => none
          | .eff f :: rest =>
              match f s.metrics s.clock with
              | (m1, clock1) =>
                  some { s with
                    events := rest, metrics := m1, clock := clock1 }
          | .yieldItem it :: rest =>
              some { s with events := rest, held := some it }
          | .fail _ :: _ =>
              some { s with events := [], readerDead := true }
  | .put =>
      match s.held with
      | none => none
      | some it =>
          if s.taskQ.length < qcap n then
            some { s with held := none, taskQ := s.taskQ ++ [it] }
          else none
  | .take k =>
      match s.workers.get? k with
      | some .idle =>
          match s.taskQ with
          | [] => none
          | it :: rest =>
              some { s with
                taskQ := rest, workers := s.workers.set k (.busy it) }
      | _ => none
  | .finish k =>
      match s.workers.get? k with
      | some (.busy it) =>
          match tr it.fmt it.var with
          | some allele =>
              if s.resultQ.length < qcap n then
                some { s with
                  resultQ := s.resultQ ++ [{ it with result := some allele }],
                  workers := s.workers.set k .idle }
              else none
          | none => some { s with workers := s.workers.set k .dead }
      | _ => none
  | .pop =>
      match s.resultQ with
      | [] => none
      | r :: rest =>
          match consumeItem kb s.metrics r with
          | .ok m1 =>
              some { s with
                resultQ := rest, c := s.c + 1, metrics := m1 }
          | .error e => some { s with resultQ := rest, crashed := some e }
  | .timeout =>
      if s.resultQ.isEmpty then
        if 0 < s.c ∧ s.workers.all WStatus.notBusy = true then
          some { s with exited := true }
        else some s
      else none

/-- Initial state of a threaded annotate_all run: total start time
recorded, generator not yet started, queues empty, workers idle. -/
def initAState (mani : ManifestM) (n : Nat) (clock : Nat) : AState :=
  { events := genEvents mani.compute_for_ref mani.limit mani.vcf_files,
    held := none, readerDead := false, taskQ := [],
    workers := List.replicate n .idle, resultQ := [], c := 0,
    exited := false, crashed := none,
    metrics := { metricsInit with
      total := { metricsInit.total with start_time := some clock } },
    clock := clock + 1 }

/-- Run an explicit scheduler trace of the threaded composed run. -/
def runASchedule (tr : String → String → Option Allele)
    (kb : String → Bool) (n : Nat) (s : AState) :
    List AAction → Option AState
  | [] => some s
  | a :: acts =>
      match astep tr kb n s a with
      | some s1 => runASchedule tr kb n s1 acts
      | none => none

/-- Run end of the threaded annotate_all: once the consumer loop exits
without an exception, annotate_all runs its finalization and writes the
metrics file (the reader thread may still be blocked: it is a daemon). -/
def annotateThreadedResult (s : AState) : Option (Metrics × Nat) :=
  if s.exited = true ∧ s.crashed = none then
    some (finalizeMetrics s.metrics s.clock)
  else none

/-- Translation outcome for the C4 counterexample: expressions at the 2xx
positions raise, everything else succeeds. -/
def trC4 : String → String → Option Allele :=
  fun _ var =>
    if pyContains "-20" var then none else some ⟨"ga4gh:VA." ++ var⟩

/-- Manifest of the C4 counterexample: one work file whose first variant
translates and whose seven following variants raise. -/
def maniC4 : ManifestM :=
  { vcf_files := [("f1",
      ["1\t100\trs\tA\tT",
       "1\t201\trs\tA\tT",
       "1\t202\trs\tA\tT",
       "1\t203\trs\tA\tT",
       "1\t204\trs\tA\tT",
       "1\t205\trs\tA\tT",
       "1\t206\trs\tA\tT",
       "1\t207\trs\tA\tT"])],
    disable_progress_bars := true }

/-- Scheduler trace for the C4 counterexample with two workers (task-queue
capacity 4): the first item goes through and is consumed, the next two
kill both workers, four more fill the task queue, the reader blocks
holding the eighth, and the consumer times out and exits. -/
def c4Sched : List AAction :=
  [.pull, .pull, .put, .take 0, .finish 0, .pop,
   .pull, .put, .take 0, .finish 0,
   .pull, .put, .take 1, .finish 1,
   .pull, .put, .pull, .put, .pull, .put, .pull, .put,
   .pull,
   .timeout]

/-- The metrics that the C4 counterexample run serializes at run end. -/
def c4FinalMetrics : Option Metrics :=
  match runASchedule trC4 kbFalse 2 (initAState maniC4 2 0) c4Sched with
  | some s => (annotateThreadedResult s).map Prod.fst
  | none => none

/-- C4 counterexample: on the threaded path (selected for every
num_threads > 1, the manifest default being 20), annotate_all can reach
run end and write metrics in which a per-file record still has status
"started" and no elapsed time — here because both workers died on raised
translations, the reader thread blocked forever on the full task queue
before the generator could run the close writes, and the consumer exited
after its one consumed result. The original claim says every per-file
record has status "finished" with elapsed time computed at run end. -/
theorem threaded_run_end_unfinished_record :
    c4FinalMetrics.map (fun m =>
        ((m.files.lookup "f1").map (fun r => (r.status, r.elapsed_time)),
         m.total.successes))
      = some (some (some "started", none), some 1) := by
  rfl

end VrsAnvil
